import Mathlib

/-!
# Simon memory game for the ATtiny85 (`memory_game/main.c`)

A shallow embedding of the firmware and a verification of its specification.

Machine integers are natural numbers reduced modulo `2 ^ w` wherever the C
code can overflow (on AVR `int` is 16 bits wide, `long` 32 bits).  The
firmware is a single control flow plus the watchdog interrupt; it is modelled
as a deterministic machine that consumes a list of events:

* `Event.tick b` is one firing of `ISR(WDT_vect)` with `TCNT0 = b`;
* `Event.run io` executes the next block of `main`; `io` is the value of the
  one hardware register the block reads (`ADCL` during boot, `PINB`
  elsewhere) and is ignored by blocks which read none.

The interrupt is taken between blocks, and it is taken only while it is
enabled: not before `sei()` in `main` and not after `sleep_now()`, which
disables the interrupts and the watchdog before it powers the device down and
so does not return.  A block holds at most one hardware read; the test
`time > 4000` that directly follows `time = 0; ...; break;` after a correct
press belongs to the block of that assignment.

The persistent store is the EEPROM, of which the firmware uses the bytes at
addresses 0, 1 and 2.  Everything the firmware does to the speaker, the
busy-wait delays and the entry into power-down are recorded in the output
trace `State.out`.
-/

namespace MemoryGame

/-! ## Constants and tables -/

/-- The table `buttons[4]`: pin patterns of the four buttons. -/
def buttons : List Nat := [0x0a, 0x06, 0x03, 0x12]

/-- The table `tones[4]`: timer periods of the four tones. -/
def tones : List Nat := [239, 179, 143, 119]

/-- Bitwise complement of a `uint8_t` (the C expression `~ x` stored back
into eight bits). -/
def not8 (x : Nat) : Nat := (x % 256) ^^^ 255

/-! ## The persistent store -/

/-- The three EEPROM bytes used by the firmware (addresses 0, 1, 2). -/
structure Eeprom where
  b0 : Nat
  b1 : Nat
  b2 : Nat
deriving DecidableEq, Repr

/-- An erased EEPROM reads `0xFF` everywhere. -/
def Eeprom.erased : Eeprom := ⟨0xFF, 0xFF, 0xFF⟩

/-- The library call `eeprom_read_byte`. -/
def eeprom_read_byte (e : Eeprom) (addr : Nat) : Nat :=
  match addr with
  | 0 => e.b0
  | 1 => e.b1
  | 2 => e.b2
  | _ => 0xFF

/-- The library call `eeprom_write_byte`. -/
def eeprom_write_byte (e : Eeprom) (addr : Nat) (v : Nat) : Eeprom :=
  match addr with
  | 0 => { e with b0 := v % 256 }
  | 1 => { e with b1 := v % 256 }
  | 2 => { e with b2 := v % 256 }
  | _ => e

/-- The library call `eeprom_read_word` (little endian, as on AVR). -/
def eeprom_read_word (e : Eeprom) (addr : Nat) : Nat :=
  eeprom_read_byte e addr + 256 * eeprom_read_byte e (addr + 1)

/-- The library call `eeprom_write_word` (little endian, as on AVR). -/
def eeprom_write_word (e : Eeprom) (addr : Nat) (v : Nat) : Eeprom :=
  eeprom_write_byte (eeprom_write_byte e addr (v % 256)) (addr + 1) (v / 256 % 256)

/-! ## Output trace -/

/-- Observable actions of the firmware. -/
inductive Out where
  /-- The call `play(index, period)`. -/
  | tone (index period : Nat)
  /-- The call `_delay_loop_2(n)` with its 16-bit argument. -/
  | delay (n : Nat)
  /-- The call `sleep_now()`. -/
  | sleep
deriving DecidableEq, Repr

/-! ## Program state -/

/-- Program points of `main` between which the interrupt can be taken. -/
inductive PC where
  /-- Entry of `main`, before the ADC conversion; interrupts are disabled. -/
  | boot
  /-- The loop `while (nrot);`. -/
  | entropy
  /-- The read of the best score and the `switch (PINB & 0x1d)`. -/
  | modeSelect
  /-- Head of `while (1)`, before the first `reset_context()`. -/
  | roundStart
  /-- Test of the playback loop with loop variable `index`. -/
  | playback (index : Nat)
  /-- Test of the verification loop with loop variable `index`. -/
  | verify (index : Nat)
  /-- Body of `for (button ...)` inside `while (! pressed)`. -/
  | poll (index button : Nat)
  /-- The statement `if (time > 4000) sleep_now();` after a `for` loop that
  ended without a recognised press. -/
  | idle (index : Nat)
  /-- The branch taken when button `button` has been recognised. -/
  | pressed (index button : Nat)
  /-- After the verification loop: `_delay_loop_2(65535); if (level < 254)`. -/
  | levelEnd
  /-- Power-down entered by `sleep_now()`; left only by an external reset. -/
  | asleep
deriving DecidableEq, Repr

/-- The global variables, the EEPROM, the program point and the trace. -/
structure State where
  pc : PC
  context : Nat
  last_button : Nat
  level : Nat
  max_level : Nat
  seed : Nat
  nrot : Nat
  time : Nat
  eeprom : Eeprom
  out : List Out
deriving DecidableEq, Repr

/-- State after an external reset: the initialised globals of the C file. -/
def init (e : Eeprom) : State :=
  { pc := .boot, context := 0, last_button := 0, level := 0, max_level := 0,
    seed := 0, nrot := 8, time := 0, eeprom := e, out := [] }

/-- Inputs of the machine. -/
inductive Event where
  /-- The watchdog interrupt fires while `TCNT0` holds the given value. -/
  | tick (tcnt0 : Nat)
  /-- The main flow executes its next block; the argument is the value of
  the hardware register read by that block. -/
  | run (io : Nat)
deriving DecidableEq, Repr

/-! ## The functions of `main.c` -/

/-- The function `sleep_now`: interrupts and watchdog off, power-down. -/
def sleep_now (s : State) : State :=
  { s with pc := .asleep, out := s.out ++ [Out.sleep] }

/-- The function `play`. -/
def play (index period : Nat) (s : State) : State :=
  { s with out := s.out ++ [Out.tone index period] }

/-- The primitive `_delay_loop_2`, whose parameter is a `uint16_t`. -/
def delay_loop_2 (n : Nat) (s : State) : State :=
  { s with out := s.out ++ [Out.delay (n % 65536)] }

/-- The function `level_up`: `play(index, 25000)` for `index = 0 .. 3`. -/
def level_up (s : State) : State :=
  play 3 25000 (play 2 25000 (play 1 25000 (play 0 25000 s)))

/-- The function `game_over`. -/
def game_over (s : State) : State :=
  let s := play (3 - 3) 25000 (play (3 - 2) 25000 (play (3 - 1) 25000 (play (3 - 0) 25000 s)))
  let s :=
    if s.level > s.max_level then
      let s := { s with eeprom := eeprom_write_byte s.eeprom 0 (not8 s.level) }
      let s := { s with eeprom := eeprom_write_word s.eeprom 1 s.seed }
      level_up (level_up (level_up s))
    else s
  sleep_now s

/-- The function `reset_context`. -/
def reset_context (s : State) : State :=
  { s with context := s.seed }

/-- The statement `context = context * 1103515245 + 12345` on a `uint32_t`. -/
def lcg (c : Nat) : Nat := (c * 1103515245 + 12345) % 2 ^ 32

/-- The reduction of the advanced context to a two-bit symbol. -/
def fold4 (c : Nat) : Nat :=
  let temp := (c ^^^ (c >>> 8)) % 256
  let temp := (temp ^^^ (temp >>> 4)) % 256
  (temp ^^^ (temp >>> 2)) &&& 0x03

/-- The function `simple_random4`: the returned symbol and the new state. -/
def simple_random4 (s : State) : Nat × State :=
  let c := lcg s.context
  (fold4 c, { s with context := c })

/-- The interrupt handler `ISR(WDT_vect)`. -/
def isr (tcnt0 : Nat) (s : State) : State :=
  let s := { s with time := (s.time + 1) % 65536 }
  if s.nrot ≠ 0 then
    { s with nrot := s.nrot - 1, seed := ((s.seed <<< 1) ^^^ (tcnt0 % 256)) % 65536 }
  else s

/-- The argument of the pacing delay in the playback loop, computed in
32-bit `long` arithmetic. -/
def pace (level : Nat) : Nat := 4400 + 489088 / (8 + level)

/-- The `switch (PINB & 0x1d)` of `main`, after `max_level` has been read. -/
def mode_select (pinb : Nat) (s : State) : State :=
  let s := { s with max_level := not8 (eeprom_read_byte s.eeprom 0) }
  let sw := pinb &&& 0x1d
  if sw = 0x19 then
    let s := { s with level := s.max_level }
    { s with seed := eeprom_read_word s.eeprom 1 }
  else if sw = 0x1c then
    { s with seed := eeprom_read_word s.eeprom 1 }
  else if sw = 0x0d then
    { s with level := 255 }
  else if sw = 0x15 then
    let s := { s with eeprom := eeprom_write_byte s.eeprom 0 255 }
    { s with max_level := 0 }
  else s

/-- The test `! (PINB & buttons[button] & 0x1d)`. -/
def active (pinb button : Nat) : Bool :=
  (pinb &&& buttons.getD button 0 &&& 0x1d) = 0

/-- The test `time > 1 || button != last_button`. -/
def recognised (s : State) (button : Nat) : Bool :=
  decide (s.time > 1) || decide (button ≠ s.last_button)

/-- One block of the main flow. -/
def main_step (io : Nat) (s : State) : State :=
  match s.pc with
  | .boot =>
      -- seed = ADCL; setup_watchdog(0); sei();
      { s with seed := io % 256, pc := .entropy }
  | .entropy =>
      -- while (nrot);
      if s.nrot ≠ 0 then s else { s with pc := .modeSelect }
  | .modeSelect =>
      { mode_select io s with pc := .roundStart }
  | .roundStart =>
      { reset_context s with pc := .playback 0 }
  | .playback index =>
      if index ≤ s.level then
        let s := delay_loop_2 (pace s.level) s
        let r := simple_random4 s
        let s := play r.1 45000 r.2
        { s with pc := .playback ((index + 1) % 256) }
      else
        let s := { s with time := 0 }
        let s := { s with last_button := 5 }
        { reset_context s with pc := .verify 0 }
  | .verify index =>
      if index ≤ s.level then { s with pc := .poll index 0 }
      else { s with pc := .levelEnd }
  | .poll index button =>
      if button < 4 then
        let next : PC := if button + 1 < 4 then .poll index (button + 1) else .idle index
        if active io button then
          if recognised s button then { s with pc := .pressed index button }
          else { s with time := 0, pc := next }
        else { s with pc := next }
      else { s with pc := .idle index }
  | .idle index =>
      if s.time > 4000 then sleep_now s else { s with pc := .poll index 0 }
  | .pressed index button =>
      let s := play button 45000 s
      let r := simple_random4 s
      let correct := r.1
      let s := r.2
      if button ≠ correct then
        let s := play correct 20000 (delay_loop_2 10000 s)
        let s := play correct 20000 (delay_loop_2 10000 s)
        let s := play correct 20000 (delay_loop_2 10000 s)
        game_over (delay_loop_2 65535 s)
      else
        -- time = 0; last_button = button; break; then the test after the
        -- `for` loop reads the value just written and `pressed` ends `while`
        let s := { s with time := 0 }
        let s := { s with last_button := button }
        if s.time > 4000 then sleep_now s
        else { s with pc := .verify ((index + 1) % 256) }
  | .levelEnd =>
      let s := delay_loop_2 65535 s
      if s.level < 254 then
        let s := { s with level := (s.level + 1) % 256 }
        let s := delay_loop_2 45000 (level_up s)
        { s with pc := .roundStart }
      else
        game_over (level_up s)
  | .asleep => s

/-- One transition of the machine. -/
def step (s : State) (e : Event) : State :=
  match e with
  | .run io => main_step io s
  | .tick b =>
      match s.pc with
      | .boot => s
      | .asleep => s
      | _ => isr b s

/-- Execution of a list of events. -/
def runs (s : State) (es : List Event) : State :=
  es.foldl step s

/-- Number of main-flow blocks in a list of events. -/
def runCount : List Event → Nat
  | [] => 0
  | .run _ :: es => runCount es + 1
  | .tick _ :: es => runCount es

/-! ## Derived notions used in the statements -/

/-- Context after `n` calls of `simple_random4` starting from context `c`. -/
def lcgIter : Nat → Nat → Nat
  | 0, c => c
  | n + 1, c => lcgIter n (lcg c)

/-- Symbols returned by `n` successive calls of `simple_random4`. -/
def draw : Nat → State → List Nat
  | 0, _ => []
  | n + 1, s => (simple_random4 s).1 :: draw n (simple_random4 s).2

/-- Symbol returned by the call number `k` (from 0) of `simple_random4`
after `reset_context()` with the given seed. -/
def symbolAt (seed k : Nat) : Nat := fold4 (lcgIter (k + 1) seed)

/-- The first `n` symbols generated from a seed. -/
def symbols (seed n : Nat) : List Nat := (List.range n).map (symbolAt seed)

/-- Indices of the tones in a trace, in order. -/
def tonesOf : List Out → List Nat
  | [] => []
  | .tone i _ :: o => i :: tonesOf o
  | _ :: o => tonesOf o

/-- Trace of the first `n` iterations of the playback loop at a level. -/
def playbackOut (level seed : Nat) : Nat → List Out
  | 0 => []
  | n + 1 => playbackOut level seed n ++
      [Out.delay (pace level % 65536), Out.tone (symbolAt seed n) 45000]

/-- Trace of `n` recognised presses which equal the generated symbols. -/
def pressOut (seed n : Nat) : List Out :=
  (symbols seed n).map (fun b => Out.tone b 45000)

/-- Best level decoded from the store, as read at boot. -/
def load_best (e : Eeprom) : Nat := not8 (eeprom_read_byte e 0)

/-- Seed read from the store, as read at boot. -/
def load_seed (e : Eeprom) : Nat := eeprom_read_word e 1

/-- The two writes of `game_over` that save a record. -/
def save_record (e : Eeprom) (level seed : Nat) : Eeprom :=
  eeprom_write_word (eeprom_write_byte e 0 (not8 level)) 1 seed

/-! ## Invariants and concrete executions -/

/-- Invariant of the boot phase after a reset with store `e`: nothing has been
written or played, `level` still has its initial value, and the mode is
selected only once the entropy window is closed. -/
def Booting (e : Eeprom) (s : State) : Prop :=
  s.eeprom = e ∧ s.level = 0 ∧ s.out = [] ∧
    (s.pc = .boot ∨ s.pc = .entropy ∨ (s.pc = .modeSelect ∧ s.nrot = 0))

/-- Invariant of a verification pass at position `i`. -/
def AwaitInv (s : State) (i : Nat) : Prop :=
  i ≤ s.level ∧ s.level ≤ 254 ∧ s.context = lcgIter i s.seed ∧ (i = 0 → s.last_button = 5)

/-- Invariant of the game loop for a session whose seed is `seed`. -/
def Game (seed : Nat) (s : State) : Prop :=
  s.nrot = 0 ∧ s.seed = seed ∧ s.level < 256 ∧
    match s.pc with
    | .boot => False
    | .entropy => False
    | .modeSelect => False
    | .roundStart => True
    | .playback i => i < 256
    | .verify i => i ≤ s.level + 1 ∧ s.level ≤ 254 ∧ s.context = lcgIter i s.seed ∧
        (i = 0 → s.last_button = 5)
    | .poll i _ => AwaitInv s i
    | .idle i => AwaitInv s i
    | .pressed i _ => AwaitInv s i
    | .levelEnd => s.level ≤ 254
    | .asleep => True

/-- Invariant: `sleep_now` has been called once if the machine sleeps and not
at all otherwise. -/
def SleepOnce (s : State) : Prop :=
  s.out.count Out.sleep = if s.pc = .asleep then 1 else 0

/-- A boot without a held button on an erased store (ADC byte 0, timer byte 0
at each of the eight entropy ticks), playback of level 0, then three ticks
while the first button is polled. -/
def bootAndPlay : List Event :=
  [.run 0, .tick 0, .tick 0, .tick 0, .tick 0, .tick 0, .tick 0, .tick 0, .tick 0,
   .run 0, .run 0x1d, .run 0, .run 0, .run 0, .run 0, .tick 0, .tick 0, .tick 0]

/-- The playback loop has run `n` iterations in a round at level `L` with seed
`seed`, entered with trace `o`. -/
def PlaybackAt (L seed : Nat) (o : List Out) (n : Nat) (s : State) : Prop :=
  s.nrot = 0 ∧ s.seed = seed ∧ s.level = L ∧ s.pc = .playback (n % 256) ∧
    s.context = lcgIter n seed ∧ s.out = o ++ playbackOut L seed n

/-- The verification pass has accepted `i` presses, all equal to the generated
symbols. -/
def AwaitAt (L seed : Nat) (o : List Out) (i : Nat) (s : State) : Prop :=
  s.context = lcgIter i seed ∧ s.out = o ++ playbackOut L seed (L + 1) ++ pressOut seed i

/-- The machine is inside the round at level `L` with seed `seed` which was
entered with trace `o`, and every press so far was correct. -/
def Round (L seed : Nat) (o : List Out) (s : State) : Prop :=
  s.nrot = 0 ∧ s.seed = seed ∧ s.level = L ∧
    match s.pc with
    | .roundStart => s.out = o
    | .playback i => i ≤ L + 1 ∧ s.context = lcgIter i seed ∧ s.out = o ++ playbackOut L seed i
    | .verify i => i ≤ L + 1 ∧ AwaitAt L seed o i s
    | .poll i _ => i ≤ L ∧ AwaitAt L seed o i s
    | .idle i => i ≤ L ∧ AwaitAt L seed o i s
    | .pressed i _ => i ≤ L ∧ AwaitAt L seed o i s
    | .levelEnd => AwaitAt L seed o (L + 1) s
    | .boot => False
    | .entropy => False
    | .modeSelect => False
    | .asleep => False

/-- The round has been left: the machine sleeps after a call of `sleep_now`,
or the trace has grown beyond the last correct press of the round. -/
def Done (L seed : Nat) (o : List Out) (s : State) : Prop :=
  (s.pc = .asleep ∧ ∃ x, s.out = x ++ [Out.sleep]) ∨
    ∃ x, s.out = o ++ playbackOut L seed (L + 1) ++ pressOut seed (L + 1) ++ Out.delay 65535 :: x

/-- Head of the game loop at a given level and seed, entropy window closed. -/
def RoundHead (L seed : Nat) (s : State) : Prop :=
  s.pc = .roundStart ∧ s.nrot = 0 ∧ s.seed = seed ∧ s.level = L

/-- A game at level 0 with seed 0 at the head of the game loop. -/
def freshRound : State :=
  { pc := .roundStart, context := 0, last_button := 0, level := 0, max_level := 0,
    seed := 0, nrot := 0, time := 0, eeprom := Eeprom.erased, out := [] }

/-- Playback of level 0, then polling with button 3 held (`PINB = 0x0d`) until
the press is recognised and compared. -/
def playAndPress : List Event :=
  [.run 0, .run 0, .tick 0, .run 0, .run 0, .run 0x0d, .run 0x0d, .tick 0, .run 0x0d,
   .run 0x0d, .run 0]

/-- A boot up to mode selection: the ADC conversion reads `0x5a`, eight
watchdog ticks at different timer values close the entropy window. -/
def bootEvents : List Event :=
  [.run 0x5a, .tick 3, .tick 200, .tick 17, .tick 99, .tick 254, .tick 8, .tick 61, .tick 120,
   .run 0]

/-- A state at the end of a successful recall of level 254. -/
def recall254 : State :=
  { pc := .levelEnd, context := lcgIter 255 0, last_button := 0, level := 254,
    max_level := 254, seed := 0, nrot := 0, time := 0, eeprom := ⟨1, 0, 0⟩, out := [] }

/-- The table lookups of `play`: the values it writes to `DDRB`, `OCR0A` and
`OCR0B`, or `none` when `index` lies outside one of the tables. -/
def play_registers (index : Nat) : Option (Nat × Nat × Nat) :=
  match buttons[index]?, tones[index]? with
  | some b, some t => some (b, t, t >>> 1)
  | _, _ => none

/-- Every tone of a trace has an index below 4. -/
def Ok4 (o : List Out) : Prop := ∀ x ∈ tonesOf o, x < 4

/-- Invariant: every call of `play` so far had an index below 4, and so has
the echo of a recognised button that is about to be played. -/
def ToneOk (s : State) : Prop :=
  Ok4 s.out ∧ ∀ i b, s.pc = .pressed i b → b < 4

/-- Periods of the tones in a trace, in order. -/
def periodsOf : List Out → List Nat
  | [] => []
  | .tone _ p :: o => p :: periodsOf o
  | _ :: o => periodsOf o

/-- Arguments of the delays in a trace, in order. -/
def delaysOf : List Out → List Nat
  | [] => []
  | .delay n :: o => n :: delaysOf o
  | _ :: o => delaysOf o

/-- The playback loop about to play its first symbol at the given level, in a
game with seed 0. -/
def playbackAt (level : Nat) : State :=
  { pc := .playback 0, context := 0, last_button := 0, level := level, max_level := 0,
    seed := 0, nrot := 0, time := 0, eeprom := Eeprom.erased, out := [] }

/-- The mixing of one timer byte into the seed as the specification words it:
`seed := ((seed << 1) mod 65536) xor b`. -/
def mixSpec (seed b : Nat) : Nat := ((seed <<< 1) % 65536) ^^^ b

/-- The state in which `main` waits for the entropy window, after the ADC
conversion returned the byte `a`. -/
def afterAdc (a : Nat) : State :=
  step (init Eeprom.erased) (.run a)

/-- From the head of the game loop at level 0 with seed 0: the symbol 3 is
played and pressed, level 1 is played back, button 3 is pressed for its first
symbol and is still held (`PINB = 0x0d`) one tick later when the polling loop
of the second position reaches it. -/
def holdButton : List Event :=
  playAndPress ++
    [.run 0, .run 0, .run 0, .run 0, .run 0, .run 0, .run 0,
     .run 0x0d, .run 0x0d, .run 0x0d, .run 0x0d, .run 0, .run 0, .tick 0,
     .run 0x0d, .run 0x0d, .run 0x0d]

/-- The reward melody of `game_over`: `level_up()` three times. -/
def rewardOut : List Out :=
  [Out.tone 0 25000, Out.tone 1 25000, Out.tone 2 25000, Out.tone 3 25000,
   Out.tone 0 25000, Out.tone 1 25000, Out.tone 2 25000, Out.tone 3 25000,
   Out.tone 0 25000, Out.tone 1 25000, Out.tone 2 25000, Out.tone 3 25000]

/-- Invariant of demo mode for a device with store `e`: the level is 255, the
store is untouched and the machine stands at the head of the game loop or in
the playback loop. -/
def DemoInv (e : Eeprom) (seed : Nat) (s : State) : Prop :=
  s.level = 255 ∧ s.eeprom = e ∧ s.nrot = 0 ∧ s.seed = seed ∧
    (s.pc = .roundStart ∨ ∃ i, i < 256 ∧ s.pc = .playback i)

/-- The store left behind by a sequence of boot sessions: every session starts
with a reset on the store the previous one left and runs the given events
until the next reset. -/
def sessions (e : Eeprom) : List (List Event) → Eeprom
  | [] => e
  | es :: rest => sessions (runs (init e) es).eeprom rest

/-- Invariant of every session: the stored best is at most 254, and level 255
occurs only at the head of the game loop or inside the playback loop. -/
def StoreOk (s : State) : Prop :=
  load_best s.eeprom ≤ 254 ∧
    (s.level ≤ 254 ∨
      (s.level = 255 ∧ (s.pc = .roundStart ∨ ∃ i, i < 256 ∧ s.pc = .playback i)))

/-- Invariant of a game outside demo mode: level and stored best are at most
254. -/
def LevelOk (s : State) : Prop :=
  s.level ≤ 254 ∧ load_best s.eeprom ≤ 254

/-- A complete game lost at once, played after a boot with the given reading of
`PINB`: boot, playback of the first symbol, a press of button 0. -/
def lostGame (pinb : Nat) : List Event :=
  bootEvents ++ [.run pinb, .run 0, .run 0, .run 0, .run 0, .run 0x15, .run 0]

/-- The program point is the branch of a recognised press. -/
def isPressed : PC → Bool
  | .pressed _ _ => true
  | _ => false

/-- Some state of the execution of `es` from `s`, the first and the last
included, stands at the branch of a recognised press. -/
def pressSeen : State → List Event → Bool
  | s, [] => isPressed s.pc
  | s, e :: es => isPressed s.pc || pressSeen (step s e) es

/-- Program point of a polling pass at position `i` after `n` buttons have been
polled without a recognised press: the poll of button `n`, or after the fourth
the test `time > 4000`. -/
def pollPC (i n : Nat) : PC := if n < 4 then .poll i n else .idle i

/-- The state reached from reset on an erased store by a boot without a held
button and the playback of level 0: the first polling pass is about to
start. -/
def pollStart : State := runs (init Eeprom.erased) bootAndPlay

/-- A boot without a held button that harvests the seed 0: the ADC byte and
the timer byte at each of the eight entropy ticks are 0. -/
def bootQuiet : List Event :=
  [.run 0, .tick 0, .tick 0, .tick 0, .tick 0, .tick 0, .tick 0, .tick 0, .tick 0,
   .run 0, .run 0x1d]

/-- From reset on an erased store: level 0 is won, level 1 is played back and
button 0 is pressed for its first symbol, which is 3. -/
def wrongPress : List Event :=
  bootQuiet ++ playAndPress ++
    [.run 0, .run 0, .run 0, .run 0, .run 0, .run 0, .run 0, .run 0x15]

/-! ## Arithmetic of bytes -/

theorem not8_lt (x : Nat) : not8 x < 256 := by
  unfold not8
  exact Nat.xor_lt_two_pow (n := 8) (Nat.mod_lt _ (by decide)) (by decide)

theorem not8_not8 (x : Nat) (h : x < 256) : not8 (not8 x) = x := by
  have h1 : (x % 256 ^^^ 255) % 256 = x % 256 ^^^ 255 := Nat.mod_eq_of_lt (not8_lt x)
  unfold not8
  rw [h1, Nat.xor_assoc, Nat.xor_self, Nat.xor_zero, Nat.mod_eq_of_lt h]

theorem not8_255 : not8 255 = 0 := by decide

theorem word_split (v : Nat) (h : v < 65536) : v % 256 % 256 + 256 * (v / 256 % 256 % 256) = v := by
  omega

/-! ## The persistent record -/

theorem game_over_eeprom (s : State) :
    (game_over s).eeprom =
      if s.max_level < s.level then save_record s.eeprom s.level s.seed else s.eeprom := by
  unfold game_over
  by_cases h : s.max_level < s.level <;>
    simp [h, play, sleep_now, level_up, save_record]

theorem game_over_out (s : State) (h : s.level ≤ s.max_level) :
    (game_over s).out = s.out ++ [Out.tone 3 25000, Out.tone 2 25000, Out.tone 1 25000,
      Out.tone 0 25000, Out.sleep] := by
  unfold game_over
  have h2 : ¬ s.max_level < s.level := by omega
  simp [h2, play, sleep_now]

theorem mode_select_max_level (pinb : Nat) (s : State) :
    (mode_select pinb s).max_level =
      if pinb &&& 0x1d = 0x15 then 0 else load_best s.eeprom := by
  unfold mode_select load_best
  by_cases h1 : pinb &&& 0x1d = 0x19
  · simp [h1]
  by_cases h2 : pinb &&& 0x1d = 0x1c
  · simp [h2]
  by_cases h3 : pinb &&& 0x1d = 0x0d
  · simp [h3]
  by_cases h4 : pinb &&& 0x1d = 0x15
  · simp [h4]
  · simp [h1, h2, h3, h4]

/-- C3: a record written as `game_over` writes it (complement of the level in
byte 0, the seed as a word at offset 1) is read back at boot as the same level
and seed, for every level below 256 and every 16-bit seed; `game_over` writes
exactly this record when it saves, boot decodes `max_level` exactly so unless
the best score is being reset, and an erased store decodes to best level 0. -/
theorem persistent_round_trip (e : Eeprom) (level seed : Nat)
    (hl : level < 256) (hs : seed < 65536) :
    load_best (save_record e level seed) = level ∧
    load_seed (save_record e level seed) = seed ∧
    load_best Eeprom.erased = 0 ∧
    (∀ s : State, (game_over s).eeprom =
      if s.max_level < s.level then save_record s.eeprom s.level s.seed else s.eeprom) ∧
    (∀ (pinb : Nat) (s : State), (mode_select pinb s).max_level =
      if pinb &&& 0x1d = 0x15 then 0 else load_best s.eeprom) ∧
    (∀ (pinb : Nat) (s : State), pinb &&& 0x1d = 0x19 →
      (mode_select pinb s).seed = load_seed s.eeprom) := by
  refine ⟨?_, ?_, by decide, game_over_eeprom, mode_select_max_level, ?_⟩
  · simp [load_best, save_record, eeprom_write_word, eeprom_write_byte, eeprom_read_byte,
      Nat.mod_eq_of_lt (not8_lt level), not8_not8 level hl]
  · simp only [load_seed, save_record, eeprom_write_word, eeprom_write_byte, eeprom_read_word,
      eeprom_read_byte]
    exact word_split seed hs
  · intro pinb s h
    simp [mode_select, h, load_seed]

/-- Witness of C3: saving level 5 with seed `0x1234` and loading gives them back. -/
theorem persistent_round_trip_witness :
    load_best (save_record Eeprom.erased 5 0x1234) = 5 ∧
    load_seed (save_record Eeprom.erased 5 0x1234) = 0x1234 :=
  ⟨(persistent_round_trip Eeprom.erased 5 0x1234 (by decide) (by decide)).1,
   (persistent_round_trip Eeprom.erased 5 0x1234 (by decide) (by decide)).2.1⟩

/-- C4: when `max_level` is the best level decoded from the store, the best
level decoded after `game_over` is the maximum of `level` and `max_level`, and
so it is never lower than before. -/
theorem game_over_best_monotonic (s : State) (hl : s.level < 256)
    (hm : s.max_level = load_best s.eeprom) :
    load_best (game_over s).eeprom = max s.level s.max_level ∧
    load_best s.eeprom ≤ load_best (game_over s).eeprom := by
  rw [game_over_eeprom]
  by_cases h : s.max_level < s.level
  · have h1 : load_best (save_record s.eeprom s.level s.seed) = s.level := by
      simp [load_best, save_record, eeprom_write_word, eeprom_write_byte, eeprom_read_byte,
        Nat.mod_eq_of_lt (not8_lt s.level), not8_not8 s.level hl]
    simp only [h, if_true, h1]
    constructor
    · omega
    · omega
  · simp only [h, if_false]
    constructor
    · omega
    · omega

/-- Witness of C4: game over at level 3 with a store holding best level 7. -/
theorem game_over_best_monotonic_witness :
    load_best (game_over { init ⟨248, 0x34, 0x12⟩ with level := 3, max_level := 7 }).eeprom
      = max 3 7 :=
  (game_over_best_monotonic { init ⟨248, 0x34, 0x12⟩ with level := 3, max_level := 7 }
    (by decide) (by decide)).1

/-! ## The blocks of the main flow, one program point at a time -/

theorem main_step_pressed (s : State) (io i b : Nat) (hpc : s.pc = .pressed i b) :
    main_step io s =
      if b ≠ (simple_random4 (play b 45000 s)).1 then
        game_over (delay_loop_2 65535
          (play (simple_random4 (play b 45000 s)).1 20000 (delay_loop_2 10000
          (play (simple_random4 (play b 45000 s)).1 20000 (delay_loop_2 10000
          (play (simple_random4 (play b 45000 s)).1 20000 (delay_loop_2 10000
            (simple_random4 (play b 45000 s)).2)))))))
      else
        { (simple_random4 (play b 45000 s)).2 with
            time := 0, last_button := b, pc := .verify ((i + 1) % 256) } := by
  unfold main_step
  rw [hpc]
  dsimp only
  split_ifs with h1 h2
  all_goals first | rfl | (exfalso; omega)

theorem main_step_levelEnd (s : State) (io : Nat) (hpc : s.pc = .levelEnd) :
    main_step io s =
      if s.level < 254 then
        { delay_loop_2 45000 (level_up { delay_loop_2 65535 s with level := (s.level + 1) % 256 })
            with pc := .roundStart }
      else game_over (level_up (delay_loop_2 65535 s)) := by
  unfold main_step
  rw [hpc]
  rfl

theorem main_step_playback (s : State) (io i : Nat) (hpc : s.pc = .playback i) :
    main_step io s =
      if i ≤ s.level then
        { play (simple_random4 (delay_loop_2 (pace s.level) s)).1 45000
            (simple_random4 (delay_loop_2 (pace s.level) s)).2 with pc := .playback ((i + 1) % 256) }
      else
        { s with time := 0, last_button := 5, context := s.seed, pc := .verify 0 } := by
  unfold main_step
  rw [hpc]
  rfl

theorem main_step_poll (s : State) (io i b : Nat) (hpc : s.pc = .poll i b) :
    main_step io s =
      if b < 4 then
        if active io b then
          if recognised s b then { s with pc := .pressed i b }
          else { s with time := 0, pc := if b + 1 < 4 then .poll i (b + 1) else .idle i }
        else { s with pc := if b + 1 < 4 then .poll i (b + 1) else .idle i }
      else { s with pc := .idle i } := by
  unfold main_step
  rw [hpc]

theorem main_step_idle (s : State) (io i : Nat) (hpc : s.pc = .idle i) :
    main_step io s = if s.time > 4000 then sleep_now s else { s with pc := .poll i 0 } := by
  unfold main_step
  rw [hpc]

theorem main_step_verify (s : State) (io i : Nat) (hpc : s.pc = .verify i) :
    main_step io s =
      if i ≤ s.level then { s with pc := .poll i 0 } else { s with pc := .levelEnd } := by
  unfold main_step
  rw [hpc]

theorem main_step_roundStart (s : State) (io : Nat) (hpc : s.pc = .roundStart) :
    main_step io s = { s with context := s.seed, pc := .playback 0 } := by
  unfold main_step
  rw [hpc]
  rfl

theorem main_step_modeSelect (s : State) (io : Nat) (hpc : s.pc = .modeSelect) :
    main_step io s = { mode_select io s with pc := .roundStart } := by
  unfold main_step
  rw [hpc]

theorem main_step_entropy (s : State) (io : Nat) (hpc : s.pc = .entropy) :
    main_step io s = if s.nrot ≠ 0 then s else { s with pc := .modeSelect } := by
  unfold main_step
  rw [hpc]

theorem main_step_boot (s : State) (io : Nat) (hpc : s.pc = .boot) :
    main_step io s = { s with seed := io % 256, pc := .entropy } := by
  unfold main_step
  rw [hpc]

theorem main_step_asleep (s : State) (io : Nat) (hpc : s.pc = .asleep) :
    main_step io s = s := by
  unfold main_step
  rw [hpc]

/-! ## Frame properties of `game_over` and of the interrupt -/

theorem game_over_pc (s : State) : (game_over s).pc = .asleep := by
  unfold game_over
  simp [sleep_now]

theorem game_over_frame (s : State) :
    (game_over s).nrot = s.nrot ∧ (game_over s).seed = s.seed ∧ (game_over s).level = s.level ∧
    (game_over s).max_level = s.max_level ∧ (game_over s).time = s.time ∧
    (game_over s).last_button = s.last_button ∧ (game_over s).context = s.context := by
  unfold game_over
  by_cases h : s.max_level < s.level <;> simp [h, play, sleep_now, level_up]

theorem game_over_count (s : State) :
    (game_over s).out.count Out.sleep = s.out.count Out.sleep + 1 := by
  unfold game_over
  by_cases h : s.max_level < s.level <;> simp [h, play, sleep_now, level_up, List.count_cons]

theorem step_run (s : State) (io : Nat) : step s (.run io) = main_step io s := rfl

theorem step_tick (s : State) (b : Nat) (h : s.nrot = 0) :
    step s (.tick b) = s ∨ step s (.tick b) = { s with time := (s.time + 1) % 65536 } := by
  cases hp : s.pc <;> simp [step, hp, isr, h]

theorem step_tick_boot (s : State) (b : Nat) (h : s.pc = .boot) : step s (.tick b) = s := by
  simp [step, h]

theorem step_tick_entropy (s : State) (b : Nat) (h : s.pc = .entropy) :
    step s (.tick b) = isr b s := by
  simp [step, h]

theorem runs_nil (s : State) : runs s [] = s := rfl

theorem runs_cons (s : State) (e : Event) (es : List Event) :
    runs s (e :: es) = runs (step s e) es := rfl

theorem runs_append (s : State) (es1 es2 : List Event) :
    runs s (es1 ++ es2) = runs (runs s es1) es2 := by
  simp [runs, List.foldl_append]

theorem step_asleep (s : State) (e : Event) (h : s.pc = .asleep) : step s e = s := by
  cases e with
  | tick b => simp [step, h]
  | run io => rw [step_run, main_step_asleep s io h]

theorem runs_asleep (s : State) (es : List Event) (h : s.pc = .asleep) : runs s es = s := by
  induction es with
  | nil => rfl
  | cons e es ih => rw [runs_cons, step_asleep s e h, ih]

theorem lcgIter_succ (n c : Nat) : lcgIter (n + 1) c = lcg (lcgIter n c) := by
  induction n generalizing c with
  | zero => rfl
  | succ n ih =>
    show lcgIter (n + 1) (lcg c) = lcg (lcgIter n (lcg c))
    exact ih (lcg c)


/-! ## Reachable states -/

theorem game_step (seed : Nat) (s : State) (e : Event) (h : Game seed s) :
    Game seed (step s e) := by
  obtain ⟨hn, hs, hl, hpc⟩ := h
  cases e with
  | tick b =>
    rcases step_tick s b hn with h1 | h1 <;> rw [h1]
    · exact ⟨hn, hs, hl, hpc⟩
    · exact ⟨hn, hs, hl, hpc⟩
  | run io =>
    rw [step_run]
    cases hp : s.pc with
    | boot => simp [hp] at hpc
    | entropy => simp [hp] at hpc
    | modeSelect => simp [hp] at hpc
    | roundStart =>
      rw [main_step_roundStart s io hp]
      exact ⟨hn, hs, hl, by simp⟩
    | playback i =>
      rw [main_step_playback s io i hp]
      simp only [hp] at hpc
      split_ifs with h1
      · unfold Game
        simp only [play, simple_random4, delay_loop_2]
        refine ⟨hn, hs, hl, ?_⟩
        omega
      · unfold Game
        simp only [lcgIter]
        refine ⟨hn, hs, hl, by omega, by omega, trivial, fun _ => trivial⟩
    | verify i =>
      rw [main_step_verify s io i hp]
      simp only [hp] at hpc
      obtain ⟨h1, h2, h3, h4⟩ := hpc
      split_ifs with h5
      · exact ⟨hn, hs, hl, h5, h2, h3, h4⟩
      · exact ⟨hn, hs, hl, h2⟩
    | poll i b =>
      rw [main_step_poll s io i b hp]
      simp only [hp] at hpc
      split_ifs <;> exact ⟨hn, hs, hl, hpc⟩
    | idle i =>
      rw [main_step_idle s io i hp]
      simp only [hp] at hpc
      split_ifs
      · exact ⟨hn, hs, hl, trivial⟩
      · exact ⟨hn, hs, hl, hpc⟩
    | pressed i b =>
      rw [main_step_pressed s io i b hp]
      simp only [hp] at hpc
      obtain ⟨h1, h2, h3, h4⟩ := hpc
      split_ifs with h5
      · unfold Game
        rw [game_over_pc]
        simp only [game_over_frame, play, simple_random4, delay_loop_2]
        exact ⟨hn, hs, hl, trivial⟩
      · have h6 : (i + 1) % 256 = i + 1 := by omega
        unfold Game
        simp only [play, simple_random4, h6, lcgIter_succ, ← h3]
        exact ⟨hn, hs, hl, by omega, h2, trivial, by omega⟩
    | levelEnd =>
      rw [main_step_levelEnd s io hp]
      simp only [hp] at hpc
      split_ifs with h1
      · unfold Game
        simp only [play, level_up, delay_loop_2]
        refine ⟨hn, hs, ?_, trivial⟩
        omega
      · unfold Game
        rw [game_over_pc]
        simp only [game_over_frame, play, level_up, delay_loop_2]
        exact ⟨hn, hs, hl, trivial⟩
    | asleep =>
      rw [main_step_asleep s io hp]
      exact ⟨hn, hs, hl, by simp [hp]⟩


theorem mode_select_eq (pinb : Nat) (s : State) :
    mode_select pinb s =
      if pinb &&& 0x1d = 0x19 then
        { s with max_level := load_best s.eeprom, level := load_best s.eeprom,
                 seed := load_seed s.eeprom }
      else if pinb &&& 0x1d = 0x1c then
        { s with max_level := load_best s.eeprom, seed := load_seed s.eeprom }
      else if pinb &&& 0x1d = 0x0d then
        { s with max_level := load_best s.eeprom, level := 255 }
      else if pinb &&& 0x1d = 0x15 then
        { s with eeprom := eeprom_write_byte s.eeprom 0 255, max_level := 0 }
      else { s with max_level := load_best s.eeprom } := by
  unfold mode_select
  dsimp only
  split_ifs <;> rfl

theorem mode_select_nrot (pinb : Nat) (s : State) : (mode_select pinb s).nrot = s.nrot := by
  rw [mode_select_eq]
  split_ifs <;> rfl

theorem mode_select_level (pinb : Nat) (s : State) (h : s.level < 256) :
    (mode_select pinb s).level < 256 := by
  rw [mode_select_eq]
  split_ifs
  · exact not8_lt _
  · exact h
  · show 255 < 256
    omega
  · exact h
  · exact h

theorem booting_step (e : Eeprom) (s : State) (ev : Event) (h : Booting e s) :
    Booting e (step s ev) ∨ ∃ seed, Game seed (step s ev) := by
  obtain ⟨he, hl, ho, hpc⟩ := h
  rcases hpc with hp | hp | ⟨hp, hn⟩
  · left
    cases ev with
    | tick b => rw [step_tick_boot s b hp]; exact ⟨he, hl, ho, Or.inl hp⟩
    | run io =>
      rw [step_run, main_step_boot s io hp]
      exact ⟨he, hl, ho, Or.inr (Or.inl rfl)⟩
  · left
    cases ev with
    | tick b =>
      rw [step_tick_entropy s b hp]
      unfold isr
      dsimp only
      split_ifs
      · exact ⟨he, hl, ho, Or.inr (Or.inl hp)⟩
      · exact ⟨he, hl, ho, Or.inr (Or.inl hp)⟩
    | run io =>
      rw [step_run, main_step_entropy s io hp]
      split_ifs with h1
      · exact ⟨he, hl, ho, Or.inr (Or.inl hp)⟩
      · have h2 : s.nrot = 0 := by omega
        exact ⟨he, hl, ho, Or.inr (Or.inr ⟨rfl, h2⟩)⟩
  · cases ev with
    | tick b =>
      left
      rcases step_tick s b hn with h1 | h1 <;> rw [h1]
      · exact ⟨he, hl, ho, Or.inr (Or.inr ⟨hp, hn⟩)⟩
      · exact ⟨he, hl, ho, Or.inr (Or.inr ⟨hp, hn⟩)⟩
    | run io =>
      right
      rw [step_run, main_step_modeSelect s io hp]
      refine ⟨(mode_select io s).seed, ?_, rfl, ?_, trivial⟩
      · exact (mode_select_nrot io s).trans hn
      · exact mode_select_level io s (by omega)

theorem reach (e : Eeprom) (es : List Event) (s : State)
    (h : Booting e s ∨ ∃ seed, Game seed s) :
    Booting e (runs s es) ∨ ∃ seed, Game seed (runs s es) := by
  induction es generalizing s with
  | nil => exact h
  | cons ev es ih =>
    rw [runs_cons]
    apply ih
    rcases h with h | ⟨seed, h⟩
    · exact booting_step e s ev h
    · exact Or.inr ⟨seed, game_step seed s ev h⟩

theorem booting_init (e : Eeprom) : Booting e (init e) :=
  ⟨rfl, rfl, rfl, Or.inl rfl⟩

theorem reach_init (e : Eeprom) (es : List Event) :
    Booting e (runs (init e) es) ∨ ∃ seed, Game seed (runs (init e) es) :=
  reach e es (init e) (Or.inl (booting_init e))

theorem game_runs (seed : Nat) (es : List Event) (s : State) (h : Game seed s) :
    Game seed (runs s es) := by
  induction es generalizing s with
  | nil => exact h
  | cons ev es ih => rw [runs_cons]; exact ih _ (game_step seed s ev h)

theorem step_tick_pc_out (s : State) (b : Nat) :
    (step s (.tick b)).pc = s.pc ∧ (step s (.tick b)).out = s.out := by
  cases hp : s.pc <;> simp only [step, hp, isr] <;> (try split_ifs) <;> simp [hp]

theorem out_play (i p : Nat) (s : State) : (play i p s).out = s.out ++ [Out.tone i p] := rfl

theorem out_delay (n : Nat) (s : State) :
    (delay_loop_2 n s).out = s.out ++ [Out.delay (n % 65536)] := rfl

theorem out_random (s : State) : (simple_random4 s).2.out = s.out := by
  simp [simple_random4]

theorem out_level_up (s : State) :
    (level_up s).out = s.out ++ [Out.tone 0 25000, Out.tone 1 25000, Out.tone 2 25000,
      Out.tone 3 25000] := by
  simp [level_up, out_play]

theorem pc_play (i p : Nat) (s : State) : (play i p s).pc = s.pc := rfl

theorem pc_delay (n : Nat) (s : State) : (delay_loop_2 n s).pc = s.pc := rfl

theorem pc_random (s : State) : (simple_random4 s).2.pc = s.pc := by
  simp [simple_random4]

theorem pc_level_up (s : State) : (level_up s).pc = s.pc := rfl

theorem count_tone (o : List Out) (i p : Nat) :
    (o ++ [Out.tone i p]).count Out.sleep = o.count Out.sleep := by
  simp [List.count_cons]

theorem count_delay (o : List Out) (n : Nat) :
    (o ++ [Out.delay n]).count Out.sleep = o.count Out.sleep := by
  simp [List.count_cons]

theorem count_play (i p : Nat) (s : State) :
    (play i p s).out.count Out.sleep = s.out.count Out.sleep := by
  rw [out_play, count_tone]

theorem count_delay_loop (n : Nat) (s : State) :
    (delay_loop_2 n s).out.count Out.sleep = s.out.count Out.sleep := by
  rw [out_delay, count_delay]

theorem count_level_up (s : State) :
    (level_up s).out.count Out.sleep = s.out.count Out.sleep := by
  unfold level_up
  simp only [count_play]

theorem sleepOnce_awake (s : State) (hp : s.pc ≠ .asleep) (hc : s.out.count Out.sleep = 0) :
    SleepOnce s := by
  unfold SleepOnce
  rw [if_neg hp]
  exact hc

theorem sleepOnce_asleep (s : State) (hp : s.pc = .asleep) (hc : s.out.count Out.sleep = 1) :
    SleepOnce s := by
  unfold SleepOnce
  rw [if_pos hp]
  exact hc

theorem sleep_once_step (s : State) (e : Event) (h : SleepOnce s) : SleepOnce (step s e) := by
  by_cases ha : s.pc = .asleep
  · rw [step_asleep s e ha]; exact h
  unfold SleepOnce at h
  rw [if_neg ha] at h
  cases e with
  | tick b =>
    apply sleepOnce_awake
    · rw [(step_tick_pc_out s b).1]; exact ha
    · rw [(step_tick_pc_out s b).2]; exact h
  | run io =>
    rw [step_run]
    cases hp : s.pc with
    | boot =>
      rw [main_step_boot s io hp]
      exact sleepOnce_awake _ (by simp) h
    | entropy =>
      rw [main_step_entropy s io hp]
      split_ifs
      · exact sleepOnce_awake _ ha h
      · exact sleepOnce_awake _ (by simp) h
    | modeSelect =>
      rw [main_step_modeSelect s io hp, mode_select_eq]
      split_ifs <;> exact sleepOnce_awake _ (by simp) h
    | roundStart =>
      rw [main_step_roundStart s io hp]
      exact sleepOnce_awake _ (by simp) h
    | playback i =>
      rw [main_step_playback s io i hp]
      split_ifs
      · apply sleepOnce_awake
        · simp
        · show (play _ 45000 (simple_random4 (delay_loop_2 (pace s.level) s)).2).out.count
            Out.sleep = 0
          rw [count_play, out_random, count_delay_loop]
          exact h
      · exact sleepOnce_awake _ (by simp) h
    | verify i =>
      rw [main_step_verify s io i hp]
      split_ifs <;> exact sleepOnce_awake _ (by simp) h
    | poll i b =>
      rw [main_step_poll s io i b hp]
      split_ifs <;> exact sleepOnce_awake _ (by simp) h
    | idle i =>
      rw [main_step_idle s io i hp]
      split_ifs
      · apply sleepOnce_asleep
        · rfl
        · show (s.out ++ [Out.sleep]).count Out.sleep = 1
          simp [h]
      · exact sleepOnce_awake _ (by simp) h
    | pressed i b =>
      rw [main_step_pressed s io i b hp]
      split_ifs
      · apply sleepOnce_asleep
        · exact game_over_pc _
        · rw [game_over_count]
          simp only [count_play, count_delay_loop, out_random, h]
      · apply sleepOnce_awake
        · simp
        · show (simple_random4 (play b 45000 s)).2.out.count Out.sleep = 0
          rw [out_random, count_play]
          exact h
    | levelEnd =>
      rw [main_step_levelEnd s io hp]
      split_ifs
      · apply sleepOnce_awake
        · simp
        · show (delay_loop_2 45000 (level_up
            { delay_loop_2 65535 s with level := (s.level + 1) % 256 })).out.count Out.sleep = 0
          rw [count_delay_loop, count_level_up]
          show (delay_loop_2 65535 s).out.count Out.sleep = 0
          rw [count_delay_loop]
          exact h
      · apply sleepOnce_asleep
        · exact game_over_pc _
        · rw [game_over_count]
          simp only [count_level_up, count_delay_loop, h]
    | asleep => exact absurd hp ha

theorem sleep_once_runs (s : State) (es : List Event) (h : SleepOnce s) :
    SleepOnce (runs s es) := by
  induction es generalizing s with
  | nil => exact h
  | cons ev es ih => rw [runs_cons]; exact ih _ (sleep_once_step s ev h)

/-- C5: when `level <= max_level`, `game_over` leaves the three bytes of the
record unchanged and plays the reverse melody only, with no reward melody; and
outside mode selection no step of the machine in such a state (a lost game
included) changes the store. -/
theorem game_over_no_save (s : State) (h : s.level ≤ s.max_level) :
    (game_over s).eeprom = s.eeprom ∧
    (game_over s).out = s.out ++ [Out.tone 3 25000, Out.tone 2 25000, Out.tone 1 25000,
      Out.tone 0 25000, Out.sleep] ∧
    (∀ e : Event, s.pc ≠ .modeSelect → (step s e).eeprom = s.eeprom) := by
  have hlt : ¬ s.max_level < s.level := by omega
  refine ⟨by rw [game_over_eeprom]; simp [hlt], game_over_out s h, ?_⟩
  intro e hpc
  cases e with
  | tick b =>
    simp only [step]
    split <;> try rfl
    all_goals (unfold isr; dsimp only; split <;> rfl)
  | run io =>
    show (main_step io s).eeprom = s.eeprom
    cases hp : s.pc with
    | boot => rw [main_step_boot s io hp]
    | entropy => rw [main_step_entropy s io hp]; split_ifs <;> rfl
    | modeSelect => exact absurd hp hpc
    | roundStart => rw [main_step_roundStart s io hp]
    | playback i =>
      rw [main_step_playback s io i hp]
      split_ifs
      · simp [play, simple_random4, delay_loop_2]
      · rfl
    | verify i => rw [main_step_verify s io i hp]; split_ifs <;> rfl
    | poll i b => rw [main_step_poll s io i b hp]; split_ifs <;> rfl
    | idle i => rw [main_step_idle s io i hp]; split_ifs <;> rfl
    | pressed i b =>
      rw [main_step_pressed s io i b hp]
      split_ifs
      · rw [game_over_eeprom]
        simp [delay_loop_2, play, simple_random4, hlt]
      · simp [play, simple_random4]
    | levelEnd =>
      rw [main_step_levelEnd s io hp]
      split_ifs
      · simp [delay_loop_2, play, level_up]
      · rw [game_over_eeprom]
        simp [delay_loop_2, play, level_up, hlt]
    | asleep => rw [main_step_asleep s io hp]

/-- Witness of C5: a fresh device (`max_level = 0`) losing at level 0. -/
theorem game_over_no_save_witness :
    (game_over { init Eeprom.erased with pc := .pressed 0 0 }).eeprom = Eeprom.erased :=
  (game_over_no_save { init Eeprom.erased with pc := .pressed 0 0 } (by decide)).1


/-! ## The input debouncer -/

theorem recognised_iff (s : State) (b : Nat) :
    recognised s b = true ↔ (1 < s.time ∨ b ≠ s.last_button) := by
  simp [recognised]

theorem at_poll_zero (e : Eeprom) (es : List Event) (b : Nat)
    (h : (runs (init e) es).pc = .poll 0 b) : (runs (init e) es).last_button = 5 := by
  rcases reach_init e es with hb | ⟨seed, hg⟩
  · obtain ⟨_, _, _, h1 | h1 | ⟨h1, _⟩⟩ := hb <;> rw [h] at h1 <;> cases h1
  · obtain ⟨_, _, _, hpc⟩ := hg
    simp only [h] at hpc
    exact hpc.2.2.2 rfl

/-- C6 (amended): at the poll of a button `b` whose signal is active, the press
is recognised if and only if `time > 1` or `b` differs from `last_button`;
otherwise `time` is reset and polling goes on.  A recognised press equal to the
expected symbol sets `time` to 0 and `last_button` to `b`.  Every verification
pass starts with `last_button = 5`, and while no press of the pass has been
recognised an active button is recognised whatever `time` is. -/
theorem debounce_rule (s : State) (i b pinb : Nat) (hpc : s.pc = .poll i b) (hb : b < 4)
    (hact : active pinb b = true) :
    ((step s (.run pinb)).pc = .pressed i b ↔ (1 < s.time ∨ b ≠ s.last_button)) ∧
    ((1 < s.time ∨ b ≠ s.last_button) → step s (.run pinb) = { s with pc := .pressed i b }) ∧
    (¬ (1 < s.time ∨ b ≠ s.last_button) →
      step s (.run pinb) =
        { s with time := 0, pc := if b + 1 < 4 then .poll i (b + 1) else .idle i }) ∧
    (∀ (t : State) (io : Nat), t.pc = .pressed i b → b = (simple_random4 t).1 →
      (step t (.run io)).time = 0 ∧ (step t (.run io)).last_button = b ∧
      (step t (.run io)).pc = .verify ((i + 1) % 256)) ∧
    (∀ (t : State) (io idx : Nat), t.pc = .playback idx → t.level < idx →
      (step t (.run io)).pc = .verify 0 ∧ (step t (.run io)).last_button = 5) ∧
    (∀ (e : Eeprom) (es : List Event), s = runs (init e) es → i = 0 →
      (step s (.run pinb)).pc = .pressed i b) := by
  have hstep : step s (.run pinb) =
      if recognised s b then { s with pc := .pressed i b }
      else { s with time := 0, pc := if b + 1 < 4 then .poll i (b + 1) else .idle i } := by
    rw [step_run, main_step_poll s pinb i b hpc, if_pos hb, if_pos hact]
  have hyes : (1 < s.time ∨ b ≠ s.last_button) →
      step s (.run pinb) = { s with pc := .pressed i b } := by
    intro h
    rw [hstep, if_pos ((recognised_iff s b).2 h)]
  have hno : ¬ (1 < s.time ∨ b ≠ s.last_button) → step s (.run pinb) =
      { s with time := 0, pc := if b + 1 < 4 then .poll i (b + 1) else .idle i } := by
    intro h
    have h2 : ¬ recognised s b = true := fun h3 => h ((recognised_iff s b).1 h3)
    rw [hstep, if_neg h2]
  refine ⟨?_, hyes, hno, ?_, ?_, ?_⟩
  · constructor
    · intro h
      by_contra hc
      rw [hno hc] at h
      by_cases h4 : b + 1 < 4
      · simp [h4] at h
      · simp [h4] at h
    · intro h
      rw [hyes h]
  · intro t io ht hsym
    have h1 : (simple_random4 (play b 45000 t)).1 = (simple_random4 t).1 := by
      simp [simple_random4, play]
    have h2 : ¬ b ≠ (simple_random4 (play b 45000 t)).1 := by
      rw [h1]; exact fun h => h hsym
    rw [step_run, main_step_pressed t io i b ht, if_neg h2]
    exact ⟨rfl, rfl, rfl⟩
  · intro t io idx ht hlt
    have h1 : ¬ idx ≤ t.level := by omega
    rw [step_run, main_step_playback t io idx ht, if_neg h1]
    exact ⟨rfl, rfl⟩
  · intro e es hs hi
    subst hi
    have h5 : s.last_button = 5 := by
      rw [hs]
      apply at_poll_zero e es b
      rw [← hs]
      exact hpc
    have h6 : 1 < s.time ∨ b ≠ s.last_button := by
      right
      omega
    rw [hyes h6]

/-- Witness of C6: after a boot on an erased store and the playback of level 0,
an active button 0 is recognised at the first poll. -/
theorem debounce_rule_witness :
    (step (runs (init Eeprom.erased) bootAndPlay) (.run 0x15)).pc = .pressed 0 0 :=
  (debounce_rule (runs (init Eeprom.erased) bootAndPlay) 0 0 0x15 (by decide) (by decide)
    (by decide)).2.2.2.2.2 Eeprom.erased bootAndPlay rfl rfl

/-- Counterexample to C6 as stated: button 0 is recognised while the expected
symbol is 3; the machine goes to game over and sleeps, `time` is still 3 and
`last_button` is still 5. -/
theorem debounce_reset_counterexample :
    (runs (init Eeprom.erased) bootAndPlay).pc = .poll 0 0 ∧
    (runs (init Eeprom.erased) bootAndPlay).time = 3 ∧
    active 0x15 0 = true ∧
    (step (runs (init Eeprom.erased) bootAndPlay) (.run 0x15)).pc = .pressed 0 0 ∧
    (step (step (runs (init Eeprom.erased) bootAndPlay) (.run 0x15)) (.run 0)).pc = .asleep ∧
    (step (step (runs (init Eeprom.erased) bootAndPlay) (.run 0x15)) (.run 0)).time = 3 ∧
    (step (step (runs (init Eeprom.erased) bootAndPlay) (.run 0x15)) (.run 0)).last_button = 5 := by
  decide


/-! ## Idle timeout and power-down -/

theorem sleep_once_init (e : Eeprom) : SleepOnce (init e) := by
  unfold SleepOnce init
  simp

theorem tick_frame (s : State) (b : Nat) :
    (step s (.tick b)).pc = s.pc ∧ (step s (.tick b)).out = s.out ∧
    (step s (.tick b)).level = s.level ∧ (step s (.tick b)).max_level = s.max_level ∧
    (step s (.tick b)).eeprom = s.eeprom ∧ (step s (.tick b)).last_button = s.last_button ∧
    (step s (.tick b)).context = s.context := by
  cases hp : s.pc <;> simp only [step, hp, isr] <;> (try split_ifs) <;>
    first | exact ⟨rfl, rfl, rfl, rfl, rfl, rfl, rfl⟩ | simp [hp]

theorem pressSeen_head (s : State) (es : List Event) (h : pressSeen s es = false) :
    isPressed s.pc = false := by
  cases es with
  | nil => exact h
  | cons e es =>
    simp only [pressSeen, Bool.or_eq_false_iff] at h
    exact h.1

theorem pressSeen_tail (s : State) (e : Event) (es : List Event)
    (h : pressSeen s (e :: es) = false) : pressSeen (step s e) es = false := by
  simp only [pressSeen, Bool.or_eq_false_iff] at h
  exact h.2

theorem poll_block (s : State) (io i n : Nat) (hpc : s.pc = .poll i n) (hn : n < 4)
    (h : isPressed (step s (.run io)).pc = false) :
    (step s (.run io)).pc = pollPC i (n + 1) ∧ (step s (.run io)).out = s.out ∧
    (step s (.run io)).level = s.level ∧ (step s (.run io)).max_level = s.max_level ∧
    (step s (.run io)).eeprom = s.eeprom ∧
    (step s (.run io)).last_button = s.last_button ∧
    (step s (.run io)).context = s.context := by
  rw [step_run, main_step_poll s io i n hpc, if_pos hn] at h ⊢
  unfold pollPC
  split_ifs at h ⊢ <;>
    first
    | exact ⟨rfl, rfl, rfl, rfl, rfl, rfl, rfl⟩
    | (exfalso; simp [isPressed] at h)

theorem poll_pass (i : Nat) (es : List Event) (s : State) (n k : Nat)
    (hpc : s.pc = pollPC i n) (hno : pressSeen s es = false) (hc : runCount es = k)
    (hk : n + k ≤ 4) :
    (runs s es).pc = pollPC i (n + k) ∧ (runs s es).out = s.out ∧
    (runs s es).level = s.level ∧ (runs s es).max_level = s.max_level ∧
    (runs s es).eeprom = s.eeprom ∧ (runs s es).last_button = s.last_button ∧
    (runs s es).context = s.context := by
  induction es generalizing s n k with
  | nil =>
    simp only [runCount] at hc
    subst hc
    exact ⟨hpc, rfl, rfl, rfl, rfl, rfl, rfl⟩
  | cons e es ih =>
    have hno2 := pressSeen_tail s e es hno
    rw [runs_cons]
    cases e with
    | tick b =>
      obtain ⟨f1, f2, f3, f4, f5, f6, f7⟩ := tick_frame s b
      obtain ⟨g1, g2, g3, g4, g5, g6, g7⟩ := ih (step s (.tick b)) n k (f1.trans hpc) hno2
        (by simpa [runCount] using hc) hk
      exact ⟨g1, g2.trans f2, g3.trans f3, g4.trans f4, g5.trans f5, g6.trans f6, g7.trans f7⟩
    | run io =>
      simp only [runCount] at hc
      have hn : n < 4 := by omega
      have hp : s.pc = .poll i n := by rw [hpc, pollPC, if_pos hn]
      obtain ⟨f1, f2, f3, f4, f5, f6, f7⟩ :=
        poll_block s io i n hp hn (pressSeen_head _ es hno2)
      obtain ⟨g1, g2, g3, g4, g5, g6, g7⟩ := ih (step s (.run io)) (n + 1) (k - 1) f1 hno2
        (by omega) (by omega)
      have hnk : n + 1 + (k - 1) = n + k := by omega
      rw [hnk] at g1
      exact ⟨g1, g2.trans f2, g3.trans f3, g4.trans f4, g5.trans f5, g6.trans f6, g7.trans f7⟩

/-- C7: a polling pass, the four polls of the `for` loop with any watchdog
ticks in between, in which no press is recognised ends at the test
`time > 4000` with level, store, trace, context and `last_button` as they were.
There the machine goes to sleep if and only if `time > 4000`; at 4000 or less
polling resumes with the first button and the state unchanged.  This holds at
every state that stands at the test.  Sleep is terminal: no later event changes
the state, so no tone is played, `level` and the store stay as they are, and in
every execution from reset `sleep_now` has been called exactly once when the
machine sleeps and never before. -/
theorem idle_timeout (s : State) (i io : Nat) (es : List Event) (hpc : s.pc = .poll i 0)
    (hc : runCount es = 4) (hno : pressSeen s es = false) :
    (runs s es).pc = .idle i ∧
    ((runs s es).out = s.out ∧ (runs s es).level = s.level ∧
      (runs s es).max_level = s.max_level ∧ (runs s es).eeprom = s.eeprom ∧
      (runs s es).last_button = s.last_button ∧ (runs s es).context = s.context) ∧
    ((step (runs s es) (.run io)).pc = .asleep ↔ 4000 < (runs s es).time) ∧
    ((runs s es).time ≤ 4000 →
      step (runs s es) (.run io) = { runs s es with pc := .poll i 0 }) ∧
    (4000 < (runs s es).time → step (runs s es) (.run io) = sleep_now (runs s es) ∧
      (step (runs s es) (.run io)).out = s.out ++ [Out.sleep] ∧
      ∀ es2 : List Event, runs (step (runs s es) (.run io)) es2 = step (runs s es) (.run io)) ∧
    (∀ t : State, t.pc = .idle i →
      ((step t (.run io)).pc = .asleep ↔ 4000 < t.time) ∧
      (t.time ≤ 4000 → step t (.run io) = { t with pc := .poll i 0 }) ∧
      (4000 < t.time → step t (.run io) = sleep_now t ∧
        (step t (.run io)).out = t.out ++ [Out.sleep] ∧
        ∀ es2 : List Event, runs (step t (.run io)) es2 = step t (.run io))) ∧
    (∀ (e : Eeprom) (es0 : List Event),
      (runs (init e) es0).out.count Out.sleep =
        if (runs (init e) es0).pc = .asleep then 1 else 0) := by
  have hgen : ∀ t : State, t.pc = .idle i →
      ((step t (.run io)).pc = .asleep ↔ 4000 < t.time) ∧
      (t.time ≤ 4000 → step t (.run io) = { t with pc := .poll i 0 }) ∧
      (4000 < t.time → step t (.run io) = sleep_now t ∧
        (step t (.run io)).out = t.out ++ [Out.sleep] ∧
        ∀ es2 : List Event, runs (step t (.run io)) es2 = step t (.run io)) := by
    intro t ht
    have hstep := main_step_idle t io i ht
    rw [← step_run] at hstep
    refine ⟨?_, ?_, ?_⟩
    · constructor
      · intro h
        by_contra hc
        rw [hstep, if_neg hc] at h
        cases h
      · intro h
        rw [hstep, if_pos h]
        rfl
    · intro h
      have h2 : ¬ t.time > 4000 := by omega
      rw [hstep, if_neg h2]
    · intro h
      rw [hstep, if_pos h]
      exact ⟨rfl, rfl, fun es => runs_asleep _ es rfl⟩
  have hp0 : s.pc = pollPC i 0 := by rw [hpc]; rfl
  obtain ⟨p1, p2, p3, p4, p5, p6, p7⟩ := poll_pass i es s 0 4 hp0 hno hc (by omega)
  have hidle : (runs s es).pc = .idle i := by rw [p1]; rfl
  obtain ⟨g1, g2, g3⟩ := hgen (runs s es) hidle
  refine ⟨hidle, ⟨p2, p3, p4, p5, p6, p7⟩, g1, g2, ?_, hgen, ?_⟩
  · intro h
    obtain ⟨a1, a2, a3⟩ := g3 h
    exact ⟨a1, by rw [a2, p2], a3⟩
  · intro e es0
    exact sleep_once_runs (init e) es0 (sleep_once_init e)

/-- Witness of C7: the first polling pass of a game, with no button held and a
tick after the first poll, ends at the test and polling resumes. -/
theorem idle_timeout_witness :
    (runs pollStart [.run 0x1d, .tick 0, .run 0x1d, .run 0x1d, .run 0x1d]).pc = .idle 0 ∧
    ((step (runs pollStart [.run 0x1d, .tick 0, .run 0x1d, .run 0x1d, .run 0x1d])
        (.run 0)).pc = .asleep ↔
      4000 < (runs pollStart [.run 0x1d, .tick 0, .run 0x1d, .run 0x1d, .run 0x1d]).time) :=
  ⟨(idle_timeout pollStart 0 0 [.run 0x1d, .tick 0, .run 0x1d, .run 0x1d, .run 0x1d]
      (by decide) (by decide) (by decide)).1,
   (idle_timeout pollStart 0 0 [.run 0x1d, .tick 0, .run 0x1d, .run 0x1d, .run 0x1d]
      (by decide) (by decide) (by decide)).2.2.1⟩

theorem ticks_idle (n : Nat) (s : State) (hn : s.nrot = 0) (hp : s.pc ≠ .boot)
    (ha : s.pc ≠ .asleep) :
    runs s (List.replicate n (.tick 0)) = { s with time := (s.time + n) % 65536 } ∨
    (n = 0 ∧ runs s (List.replicate n (.tick 0)) = s) := by
  induction n generalizing s with
  | zero => exact Or.inr ⟨rfl, rfl⟩
  | succ n ih =>
    left
    have hstep : step s (.tick 0) = { s with time := (s.time + 1) % 65536 } := by
      have h1 : step s (.tick 0) = isr 0 s := by
        cases hq : s.pc <;> first | exact absurd hq hp | exact absurd hq ha | simp [step, hq]
      rw [h1]
      unfold isr
      simp [hn]
    rw [List.replicate_succ, runs_cons, hstep]
    rcases ih { s with time := (s.time + 1) % 65536 } hn hp ha with h | ⟨h0, h⟩
    · rw [h]
      simp only [State.mk.injEq, true_and, and_true]
      omega
    · subst h0
      rw [h]

theorem quiet_poll (t : State) (i b : Nat) (hp : t.pc = .poll i b) (hb : b < 4) :
    step t (.run 0x1d) = { t with pc := pollPC i (b + 1) } := by
  have ha : ∀ k, k < 4 → active 0x1d k = false := by decide
  rw [step_run, main_step_poll t 0x1d i b hp, if_pos hb]
  simp [ha b hb, pollPC]

theorem quiet_pass (t : State) (i : Nat) (hp : t.pc = .poll i 0) :
    runs t [.run 0x1d, .run 0x1d, .run 0x1d, .run 0x1d] = { t with pc := .idle i } := by
  rw [runs_cons, quiet_poll t i 0 hp (by decide), runs_cons,
    quiet_poll _ i 1 rfl (by decide), runs_cons, quiet_poll _ i 2 rfl (by decide), runs_cons,
    quiet_poll _ i 3 rfl (by decide)]
  rfl

theorem quiet_round (t : State) (i : Nat) (hp : t.pc = .poll i 0) (ht : t.time ≤ 4000) :
    runs t [.run 0x1d, .run 0x1d, .run 0x1d, .run 0x1d, .run 0] = t := by
  have h4 : runs t [.run 0x1d, .run 0x1d, .run 0x1d, .run 0x1d, .run 0] =
      runs (runs t [.run 0x1d, .run 0x1d, .run 0x1d, .run 0x1d]) [.run 0] := by
    rw [← runs_append]
    rfl
  have hle : ¬ t.time > 4000 := by omega
  rw [h4, quiet_pass t i hp, runs_cons, step_run, main_step_idle _ 0 i rfl, runs_nil]
  show (if t.time > 4000 then _ else _) = t
  rw [if_neg hle]
  cases t
  simp only [State.mk.injEq, and_true, true_and] at hp ⊢
  exact hp.symm

/-- Without a press and without a watchdog tick the verification loop waits
for ever: after any number of polling passes the machine stands where it
stood. -/
theorem polling_without_input (n : Nat) (t : State) (i : Nat) (hp : t.pc = .poll i 0)
    (ht : t.time ≤ 4000) :
    runs t (List.replicate n [.run 0x1d, .run 0x1d, .run 0x1d, .run 0x1d, .run 0]).flatten
      = t := by
  induction n with
  | zero => rfl
  | succ n ih =>
    rw [List.replicate_succ, List.flatten_cons, runs_append, quiet_round t i hp ht]
    exact ih

/-- An idle timeout reached from reset: after the playback of level 0 no button
is pressed while the watchdog fires 4001 times; the polling pass that follows
ends at the test with `time = 4004` and the machine goes to sleep. -/
theorem timeout_from_reset :
    (runs pollStart
      (List.replicate 4001 (.tick 0) ++ [.run 0x1d, .run 0x1d, .run 0x1d, .run 0x1d])).pc
      = .idle 0 ∧
    (runs pollStart
      (List.replicate 4001 (.tick 0) ++ [.run 0x1d, .run 0x1d, .run 0x1d, .run 0x1d])).time
      = 4004 ∧
    (step (runs pollStart
      (List.replicate 4001 (.tick 0) ++ [.run 0x1d, .run 0x1d, .run 0x1d, .run 0x1d]))
      (.run 0)).pc = .asleep := by
  have h0 : pollStart.pc = .poll 0 0 := by decide
  have ht : pollStart.time = 3 := by decide
  have hn : pollStart.nrot = 0 := by decide
  have h1 : runs pollStart (List.replicate 4001 (.tick 0)) =
      { pollStart with time := 4004 } := by
    rcases ticks_idle 4001 pollStart hn (by rw [h0]; simp) (by rw [h0]; simp) with h | ⟨h, _⟩
    · rw [h, ht]
    · omega
  have h2 : runs pollStart
      (List.replicate 4001 (.tick 0) ++ [.run 0x1d, .run 0x1d, .run 0x1d, .run 0x1d]) =
      { pollStart with time := 4004, pc := .idle 0 } := by
    rw [runs_append, h1]
    exact quiet_pass { pollStart with time := 4004 } 0 h0
  rw [h2]
  refine ⟨rfl, rfl, ?_⟩
  rw [step_run, main_step_idle _ 0 0 rfl]
  simp [sleep_now]

/-! ## Mode selection at boot -/

theorem at_modeSelect (e : Eeprom) (es : List Event)
    (h : (runs (init e) es).pc = .modeSelect) :
    (runs (init e) es).eeprom = e ∧ (runs (init e) es).level = 0 ∧
    (runs (init e) es).out = [] := by
  rcases reach_init e es with hb | ⟨seed, hg⟩
  · exact ⟨hb.1, hb.2.1, hb.2.2.1⟩
  · obtain ⟨_, _, _, hpc⟩ := hg
    simp [h] at hpc

theorem load_best_reset (e : Eeprom) : load_best (eeprom_write_byte e 0 255) = 0 := by
  simp [load_best, eeprom_write_byte, eeprom_read_byte, not8_255]

/-- C8: whatever the store holds, a boot with the reset-best pattern
(`PINB & 0x1d == 0x15`) sets `max_level` to 0 and writes `0xFF` to byte 0 of the
store, so that the store decodes to best level 0 and the next boot reads
`max_level = 0` in every mode; the game starts at level 0 from the head of the
game loop with the harvested seed. -/
theorem reset_best_boot (e : Eeprom) (es : List Event) (pinb : Nat)
    (hpc : (runs (init e) es).pc = .modeSelect) (hp : pinb &&& 0x1d = 0x15) :
    (step (runs (init e) es) (.run pinb)).max_level = 0 ∧
    (step (runs (init e) es) (.run pinb)).eeprom = eeprom_write_byte e 0 255 ∧
    load_best (step (runs (init e) es) (.run pinb)).eeprom = 0 ∧
    (∀ (es2 : List Event) (pinb2 : Nat),
      (runs (init (step (runs (init e) es) (.run pinb)).eeprom) es2).pc = .modeSelect →
      (step (runs (init (step (runs (init e) es) (.run pinb)).eeprom) es2)
        (.run pinb2)).max_level = 0) ∧
    (step (runs (init e) es) (.run pinb)).level = 0 ∧
    (step (runs (init e) es) (.run pinb)).seed = (runs (init e) es).seed ∧
    (step (runs (init e) es) (.run pinb)).pc = .roundStart ∧
    (step (runs (init e) es) (.run pinb)).out = [] := by
  obtain ⟨he, hl, ho⟩ := at_modeSelect e es hpc
  have hstep : step (runs (init e) es) (.run pinb) =
      { runs (init e) es with eeprom := eeprom_write_byte (runs (init e) es).eeprom 0 255,
                              max_level := 0, pc := .roundStart } := by
    rw [step_run, main_step_modeSelect _ pinb hpc, mode_select_eq]
    simp [hp]
  have hee : (step (runs (init e) es) (.run pinb)).eeprom = eeprom_write_byte e 0 255 := by
    rw [hstep]
    show eeprom_write_byte (runs (init e) es).eeprom 0 255 = eeprom_write_byte e 0 255
    rw [he]
  refine ⟨by rw [hstep], hee, by rw [hee]; exact load_best_reset e, ?_, by rw [hstep]; exact hl,
    by rw [hstep], by rw [hstep], by rw [hstep]; exact ho⟩
  intro es2 pinb2 h2
  rw [hee] at h2 ⊢
  obtain ⟨he2, _, _⟩ := at_modeSelect _ es2 h2
  rw [step_run, main_step_modeSelect _ pinb2 h2]
  show (mode_select pinb2 _).max_level = 0
  rw [mode_select_max_level, he2, load_best_reset]
  simp


/-- Witness of C8: reset-best boot on a store that holds best level 7. -/
theorem reset_best_boot_witness :
    (step (runs (init ⟨248, 0x34, 0x12⟩) bootEvents) (.run 0x15)).max_level = 0 ∧
    load_best (step (runs (init ⟨248, 0x34, 0x12⟩) bootEvents) (.run 0x15)).eeprom = 0 :=
  ⟨(reset_best_boot ⟨248, 0x34, 0x12⟩ bootEvents 0x15 (by decide) (by decide)).1,
   (reset_best_boot ⟨248, 0x34, 0x12⟩ bootEvents 0x15 (by decide) (by decide)).2.2.1⟩

/-- C9: the reading `PINB & 0x1d` at boot determines the start state: `0x19`
gives the stored best level and the stored seed, `0x1c` level 0 and the stored
seed, `0x0d` level 255 and the harvested seed, `0x15` level 0, `max_level = 0`
and the harvested seed, every other reading level 0 and the harvested seed.
Only the reading `0x15` writes the store (byte 0 becomes `0xFF`), and for every
other reading `max_level` is the stored best. -/
theorem mode_selection (e : Eeprom) (es : List Event) (pinb : Nat)
    (hpc : (runs (init e) es).pc = .modeSelect) :
    (pinb &&& 0x1d = 0x19 →
      (step (runs (init e) es) (.run pinb)).level = load_best e ∧
      (step (runs (init e) es) (.run pinb)).seed = load_seed e) ∧
    (pinb &&& 0x1d = 0x1c →
      (step (runs (init e) es) (.run pinb)).level = 0 ∧
      (step (runs (init e) es) (.run pinb)).seed = load_seed e) ∧
    (pinb &&& 0x1d = 0x0d →
      (step (runs (init e) es) (.run pinb)).level = 255 ∧
      (step (runs (init e) es) (.run pinb)).seed = (runs (init e) es).seed) ∧
    (pinb &&& 0x1d = 0x15 →
      (step (runs (init e) es) (.run pinb)).level = 0 ∧
      (step (runs (init e) es) (.run pinb)).max_level = 0 ∧
      (step (runs (init e) es) (.run pinb)).seed = (runs (init e) es).seed ∧
      (step (runs (init e) es) (.run pinb)).eeprom = eeprom_write_byte e 0 255) ∧
    (pinb &&& 0x1d ≠ 0x19 → pinb &&& 0x1d ≠ 0x1c → pinb &&& 0x1d ≠ 0x0d →
      pinb &&& 0x1d ≠ 0x15 →
      (step (runs (init e) es) (.run pinb)).level = 0 ∧
      (step (runs (init e) es) (.run pinb)).seed = (runs (init e) es).seed) ∧
    (pinb &&& 0x1d ≠ 0x15 →
      (step (runs (init e) es) (.run pinb)).eeprom = e ∧
      (step (runs (init e) es) (.run pinb)).max_level = load_best e) ∧
    (step (runs (init e) es) (.run pinb)).pc = .roundStart := by
  obtain ⟨he, hl, _⟩ := at_modeSelect e es hpc
  have hstep : step (runs (init e) es) (.run pinb) =
      { mode_select pinb (runs (init e) es) with pc := .roundStart } := by
    rw [step_run, main_step_modeSelect _ pinb hpc]
  rw [hstep, mode_select_eq]
  refine ⟨?_, ?_, ?_, ?_, ?_, ?_, rfl⟩
  · intro h
    simp [h, he]
  · intro h
    simp [h, he, hl]
  · intro h
    simp [h]
  · intro h
    simp [h, he, hl]
  · intro h1 h2 h3 h4
    simp [h1, h2, h3, h4, hl]
  · intro h4
    split_ifs <;> simp [he]

/-- Witness of C9: a boot with the resume pattern on a store holding best
level 7 and seed `0x1234`. -/
theorem mode_selection_witness :
    (step (runs (init ⟨248, 0x34, 0x12⟩) bootEvents) (.run 0x19)).level = 7 ∧
    (step (runs (init ⟨248, 0x34, 0x12⟩) bootEvents) (.run 0x19)).seed = 0x1234 :=
  (mode_selection ⟨248, 0x34, 0x12⟩ bootEvents 0x19 (by decide)).1 (by decide)

/-! ## Level progression -/

theorem at_levelEnd (e : Eeprom) (es : List Event)
    (h : (runs (init e) es).pc = .levelEnd) : (runs (init e) es).level ≤ 254 := by
  rcases reach_init e es with hb | ⟨seed, hg⟩
  · obtain ⟨_, _, _, h1 | h1 | ⟨h1, _⟩⟩ := hb <;> rw [h] at h1 <;> cases h1
  · obtain ⟨_, _, _, hpc⟩ := hg
    simp only [h] at hpc
    exact hpc

/-- C10 (amended): after a full successful recall at a level below 254 the
level is incremented, the ascending melody is played and the machine loops back
to playback with seed and store unchanged; after a successful recall at level
254 or above the ascending melody is followed by `game_over` with the level
unchanged; and in every execution from reset a successful recall happens at
level 254 at most, so the game ends in this way exactly at level 254. -/
theorem level_progression (s : State) (io : Nat) (hpc : s.pc = .levelEnd) :
    (s.level < 254 →
      (step s (.run io)).level = s.level + 1 ∧
      (step s (.run io)).pc = .roundStart ∧
      (step s (.run io)).seed = s.seed ∧
      (step s (.run io)).eeprom = s.eeprom ∧
      (step s (.run io)).out = s.out ++ [Out.delay 65535, Out.tone 0 25000, Out.tone 1 25000,
        Out.tone 2 25000, Out.tone 3 25000, Out.delay 45000]) ∧
    (254 ≤ s.level →
      step s (.run io) = game_over (level_up (delay_loop_2 65535 s)) ∧
      (step s (.run io)).pc = .asleep ∧
      (step s (.run io)).level = s.level) ∧
    (∀ (e : Eeprom) (es : List Event), s = runs (init e) es → s.level ≤ 254) := by
  have hstep := main_step_levelEnd s io hpc
  rw [← step_run] at hstep
  refine ⟨?_, ?_, ?_⟩
  · intro h
    rw [hstep, if_pos h]
    have h1 : (s.level + 1) % 256 = s.level + 1 := by omega
    refine ⟨h1, rfl, rfl, rfl, ?_⟩
    simp [delay_loop_2, level_up, play]
  · intro h
    have h1 : ¬ s.level < 254 := by omega
    rw [hstep, if_neg h1]
    refine ⟨rfl, game_over_pc _, ?_⟩
    rw [(game_over_frame _).2.2.1]
    rfl
  · intro e es hs
    rw [hs]
    apply at_levelEnd
    rw [← hs]
    exact hpc

/-- Witness of C10: a successful recall at level 3. -/
theorem level_progression_witness :
    (step { recall254 with level := 3 } (.run 0)).level = 3 + 1 ∧
    (step { recall254 with level := 3 } (.run 0)).pc = .roundStart :=
  ⟨((level_progression { recall254 with level := 3 } 0 rfl).1 (by decide)).1,
   ((level_progression { recall254 with level := 3 } 0 rfl).1 (by decide)).2.1⟩

/-- Counterexample to C10 as stated: a successful recall at level 254 does not
lead to level 255 and playback; the game is over with level 254. -/
theorem level_progression_counterexample :
    recall254.pc = .levelEnd ∧ recall254.level = 254 ∧
    (step recall254 (.run 0)).level = 254 ∧ (step recall254 (.run 0)).pc = .asleep := by
  decide


/-! ## The generated sequence -/

theorem symbols_succ (seed n : Nat) : symbols seed (n + 1) = symbols seed n ++ [symbolAt seed n] := by
  simp [symbols, List.range_succ]

theorem symbols_length (seed n : Nat) : (symbols seed n).length = n := by
  simp [symbols]

theorem pressOut_succ (seed n : Nat) :
    pressOut seed (n + 1) = pressOut seed n ++ [Out.tone (symbolAt seed n) 45000] := by
  simp [pressOut, symbols_succ]

theorem pressOut_length (seed n : Nat) : (pressOut seed n).length = n := by
  simp [pressOut, symbols_length]

theorem playbackOut_length (L seed n : Nat) : (playbackOut L seed n).length = 2 * n := by
  induction n with
  | zero => rfl
  | succ n ih => simp [playbackOut, ih]; omega

theorem tonesOf_append (a b : List Out) : tonesOf (a ++ b) = tonesOf a ++ tonesOf b := by
  induction a with
  | nil => rfl
  | cons x a ih => cases x <;> simp [tonesOf, ih]

theorem tonesOf_playbackOut (L seed n : Nat) : tonesOf (playbackOut L seed n) = symbols seed n := by
  induction n with
  | zero => rfl
  | succ n ih => simp [playbackOut, tonesOf_append, ih, symbols_succ, tonesOf]

theorem tonesOf_pressOut (seed n : Nat) : tonesOf (pressOut seed n) = symbols seed n := by
  induction n with
  | zero => rfl
  | succ n ih => simp [pressOut_succ, tonesOf_append, ih, symbols_succ, tonesOf]

theorem draw_eq (n : Nat) (s : State) :
    draw n s = (List.range n).map (fun k => fold4 (lcgIter (k + 1) s.context)) := by
  induction n generalizing s with
  | zero => rfl
  | succ n ih =>
    rw [draw, ih, List.range_succ_eq_map]
    simp [simple_random4, lcgIter, Function.comp_def]

theorem draw_reset (n : Nat) (s : State) : draw n (reset_context s) = symbols s.seed n := by
  rw [draw_eq]
  rfl

theorem symbols_get (seed n i : Nat) (h : i < n) : (symbols seed n)[i]? = some (symbolAt seed i) := by
  simp [symbols, List.getElem?_map, List.getElem?_range h]

theorem symbols_take (seed n m : Nat) (h : m ≤ n) : (symbols seed n).take m = symbols seed m := by
  induction n with
  | zero =>
    have : m = 0 := by omega
    subst this
    rfl
  | succ n ih =>
    by_cases hm : m = n + 1
    · subst hm
      rw [List.take_of_length_le]
      simp [symbols_length]
    · rw [symbols_succ, List.take_append_of_le_length (by simp [symbols_length]; omega)]
      exact ih (by omega)


/-! ## Counting blocks -/

theorem runCount_append (es1 es2 : List Event) :
    runCount (es1 ++ es2) = runCount es1 + runCount es2 := by
  induction es1 with
  | nil => simp [runCount]
  | cons e es ih => cases e <;> simp [runCount, ih]; omega

theorem runCount_split (es : List Event) (a b : Nat) (h : runCount es = a + b) :
    ∃ es1 es2, es = es1 ++ es2 ∧ runCount es1 = a ∧ runCount es2 = b := by
  induction es generalizing a with
  | nil =>
    simp only [runCount] at h
    exact ⟨[], [], rfl, by simp only [runCount]; omega, by simp only [runCount]; omega⟩
  | cons e es ih =>
    cases a with
    | zero => exact ⟨[], e :: es, rfl, rfl, by omega⟩
    | succ a =>
      cases e with
      | tick t =>
        obtain ⟨es1, es2, h1, h2, h3⟩ := ih (a + 1) (by simpa [runCount] using h)
        exact ⟨.tick t :: es1, es2, by rw [h1]; rfl, by simpa [runCount] using h2, h3⟩
      | run io =>
        obtain ⟨es1, es2, h1, h2, h3⟩ := ih a (by simp only [runCount] at h; omega)
        exact ⟨.run io :: es1, es2, by rw [h1]; rfl, by simp only [runCount]; omega, h3⟩

theorem runs_ticks (P : State → Prop) (hP : ∀ s b, P s → P (step s (.tick b)))
    (s : State) (es : List Event) (h : P s) (hc : runCount es = 0) : P (runs s es) := by
  induction es generalizing s with
  | nil => exact h
  | cons e es ih =>
    cases e with
    | tick t => rw [runs_cons]; exact ih _ (hP s t h) (by simpa [runCount] using hc)
    | run io => simp [runCount] at hc

theorem runs_one (P Q : State → Prop) (hP : ∀ s b, P s → P (step s (.tick b)))
    (hPQ : ∀ s io, P s → Q (step s (.run io))) (hQ : ∀ s b, Q s → Q (step s (.tick b)))
    (s : State) (es : List Event) (h : P s) (hc : runCount es = 1) : Q (runs s es) := by
  induction es generalizing s with
  | nil => simp [runCount] at hc
  | cons e es ih =>
    cases e with
    | tick t => rw [runs_cons]; exact ih _ (hP s t h) (by simpa [runCount] using hc)
    | run io =>
      rw [runs_cons]
      exact runs_ticks Q hQ _ es (hPQ s io h) (by simpa [runCount] using hc)

/-! ## The playback pass -/

theorem playbackAt_tick (L seed : Nat) (o : List Out) (n : Nat) (s : State) (b : Nat)
    (h : PlaybackAt L seed o n s) : PlaybackAt L seed o n (step s (.tick b)) := by
  rcases step_tick s b h.1 with h1 | h1 <;> rw [h1]
  · exact h
  · exact h

theorem playbackAt_run (L seed : Nat) (o : List Out) (n : Nat) (s : State) (io : Nat)
    (h : PlaybackAt L seed o n s) (hn : n % 256 ≤ L) :
    PlaybackAt L seed o (n + 1) (step s (.run io)) := by
  obtain ⟨h1, h2, h3, h4, h5, h6⟩ := h
  have hle : n % 256 ≤ s.level := by omega
  have hmod : (n % 256 + 1) % 256 = (n + 1) % 256 := by omega
  rw [step_run, main_step_playback s io _ h4, if_pos hle]
  unfold PlaybackAt
  simp only [play, simple_random4, delay_loop_2, hmod, h5, h6, h3, lcgIter_succ, playbackOut,
    symbolAt, List.append_assoc, List.singleton_append]
  exact ⟨h1, h2, trivial, trivial, trivial, trivial⟩

theorem playbackAt_runs (L seed : Nat) (o : List Out) (es : List Event) (n k : Nat) (s : State)
    (h : PlaybackAt L seed o n s) (hL : L < 256) (hk : n + k ≤ L + 1)
    (hc : runCount es = k) : PlaybackAt L seed o (n + k) (runs s es) := by
  induction es generalizing s n k with
  | nil =>
    simp only [runCount] at hc
    subst hc
    exact h
  | cons e es ih =>
    cases e with
    | tick t =>
      rw [runs_cons]
      exact ih n k _ (playbackAt_tick L seed o n s t h) hk (by simpa [runCount] using hc)
    | run io =>
      simp only [runCount] at hc
      rw [runs_cons]
      have h1 := playbackAt_run L seed o n s io h (by omega)
      have h2 := ih (n + 1) (k - 1) _ h1 (by omega) (by omega)
      have h3 : n + 1 + (k - 1) = n + k := by omega
      rw [h3] at h2
      exact h2

theorem playbackAt_start (L seed : Nat) (o : List Out) (s : State) (io : Nat)
    (hpc : s.pc = .roundStart) (hn : s.nrot = 0) (hs : s.seed = seed) (hl : s.level = L)
    (ho : s.out = o) : PlaybackAt L seed o 0 (step s (.run io)) := by
  rw [step_run, main_step_roundStart s io hpc]
  exact ⟨hn, hs, hl, rfl, hs, by simp [playbackOut, ho]⟩

theorem playback_prefix (L seed : Nat) (s : State) (es : List Event) (n : Nat)
    (hpc : s.pc = .roundStart) (hn : s.nrot = 0) (hs : s.seed = seed) (hl : s.level = L)
    (hL : L < 256) (hle : n ≤ L + 1) (hc : runCount es = n + 1) :
    PlaybackAt L seed s.out n (runs s es) := by
  induction es generalizing s with
  | nil => simp [runCount] at hc
  | cons e es ih =>
    cases e with
    | tick t =>
      rw [runs_cons]
      rcases step_tick s t hn with h1 | h1 <;> rw [h1]
      · exact ih s hpc hn hs hl (by simpa [runCount] using hc)
      · exact ih { s with time := (s.time + 1) % 65536 } hpc hn hs hl
          (by simpa [runCount] using hc)
    | run io =>
      rw [runs_cons]
      have h1 := playbackAt_start L seed s.out s io hpc hn hs hl rfl
      have h2 := playbackAt_runs L seed s.out es 0 n _ h1 hL (by omega)
        (by simp only [runCount] at hc; omega)
      rw [Nat.zero_add] at h2
      exact h2


/-! ## A round of the game -/

theorem game_over_out_ex (s : State) : ∃ y, (game_over s).out = s.out ++ y ++ [Out.sleep] := by
  unfold game_over
  by_cases h : s.max_level < s.level
  · refine ⟨[Out.tone 3 25000, Out.tone 2 25000, Out.tone 1 25000, Out.tone 0 25000,
      Out.tone 0 25000, Out.tone 1 25000, Out.tone 2 25000, Out.tone 3 25000,
      Out.tone 0 25000, Out.tone 1 25000, Out.tone 2 25000, Out.tone 3 25000,
      Out.tone 0 25000, Out.tone 1 25000, Out.tone 2 25000, Out.tone 3 25000], ?_⟩
    simp [h, play, sleep_now, level_up]
  · refine ⟨[Out.tone 3 25000, Out.tone 2 25000, Out.tone 1 25000, Out.tone 0 25000], ?_⟩
    simp [h, play, sleep_now]

theorem out_grows (s : State) (e : Event) : ∃ y, (step s e).out = s.out ++ y := by
  cases e with
  | tick b => exact ⟨[], by rw [(step_tick_pc_out s b).2, List.append_nil]⟩
  | run io =>
    rw [step_run]
    cases hp : s.pc with
    | boot => rw [main_step_boot s io hp]; exact ⟨[], by simp⟩
    | entropy => rw [main_step_entropy s io hp]; split_ifs <;> exact ⟨[], by simp⟩
    | modeSelect =>
      rw [main_step_modeSelect s io hp, mode_select_eq]
      split_ifs <;> exact ⟨[], by simp⟩
    | roundStart => rw [main_step_roundStart s io hp]; exact ⟨[], by simp⟩
    | playback i =>
      rw [main_step_playback s io i hp]
      split_ifs
      · exact ⟨[Out.delay (pace s.level % 65536), Out.tone (fold4 (lcg s.context)) 45000],
          by simp [play, simple_random4, delay_loop_2]⟩
      · exact ⟨[], by simp⟩
    | verify i => rw [main_step_verify s io i hp]; split_ifs <;> exact ⟨[], by simp⟩
    | poll i b => rw [main_step_poll s io i b hp]; split_ifs <;> exact ⟨[], by simp⟩
    | idle i =>
      rw [main_step_idle s io i hp]
      split_ifs
      · exact ⟨[Out.sleep], rfl⟩
      · exact ⟨[], by simp⟩
    | pressed i b =>
      rw [main_step_pressed s io i b hp]
      split_ifs
      · obtain ⟨y, hy⟩ := game_over_out_ex (delay_loop_2 65535
          (play (simple_random4 (play b 45000 s)).1 20000 (delay_loop_2 10000
          (play (simple_random4 (play b 45000 s)).1 20000 (delay_loop_2 10000
          (play (simple_random4 (play b 45000 s)).1 20000 (delay_loop_2 10000
            (simple_random4 (play b 45000 s)).2)))))))
        rw [hy]
        simp only [out_play, out_delay, out_random, List.append_assoc]
        exact ⟨_, rfl⟩
      · exact ⟨[Out.tone b 45000], by simp [play, simple_random4]⟩
    | levelEnd =>
      rw [main_step_levelEnd s io hp]
      split_ifs
      · exact ⟨[Out.delay 65535, Out.tone 0 25000, Out.tone 1 25000, Out.tone 2 25000,
          Out.tone 3 25000, Out.delay 45000], by simp [play, level_up, delay_loop_2]⟩
      · obtain ⟨y, hy⟩ := game_over_out_ex (level_up (delay_loop_2 65535 s))
        rw [hy]
        simp only [out_level_up, out_delay, List.append_assoc]
        exact ⟨_, rfl⟩
    | asleep => rw [main_step_asleep s io hp]; exact ⟨[], by simp⟩

theorem done_step (L seed : Nat) (o : List Out) (s : State) (e : Event)
    (h : Done L seed o s) : Done L seed o (step s e) := by
  rcases h with ⟨hp, hx⟩ | ⟨x, hx⟩
  · rw [step_asleep s e hp]
    exact Or.inl ⟨hp, hx⟩
  · obtain ⟨y, hy⟩ := out_grows s e
    right
    refine ⟨x ++ y, ?_⟩
    rw [hy, hx]
    simp

theorem round_tick (L seed : Nat) (o : List Out) (s : State) (b : Nat)
    (h : Round L seed o s) : Round L seed o (step s (.tick b)) := by
  rcases step_tick s b h.1 with h1 | h1 <;> rw [h1]
  · exact h
  · exact h

theorem round_run (L seed : Nat) (o : List Out) (s : State) (io : Nat) (hL : L ≤ 254)
    (h : Round L seed o s) :
    Round L seed o (step s (.run io)) ∨ Done L seed o (step s (.run io)) := by
  obtain ⟨hn, hs, hl, hpc⟩ := h
  rw [step_run]
  cases hp : s.pc with
  | boot => simp [hp] at hpc
  | entropy => simp [hp] at hpc
  | modeSelect => simp [hp] at hpc
  | asleep => simp [hp] at hpc
  | roundStart =>
    left
    simp only [hp] at hpc
    rw [main_step_roundStart s io hp]
    exact ⟨hn, hs, hl, by omega, hs, by simp [playbackOut, hpc]⟩
  | playback i =>
    left
    simp only [hp] at hpc
    obtain ⟨h1, h2, h3⟩ := hpc
    rw [main_step_playback s io i hp]
    split_ifs with h4
    · have hmod : (i + 1) % 256 = i + 1 := by omega
      unfold Round
      simp only [play, simple_random4, delay_loop_2, hmod, h2, h3, hl, lcgIter_succ, playbackOut,
        symbolAt, List.append_assoc, List.singleton_append]
      exact ⟨hn, hs, trivial, by omega, trivial, trivial⟩
    · have h5 : i = L + 1 := by omega
      subst h5
      refine ⟨hn, hs, hl, by omega, hs, ?_⟩
      show s.out = o ++ playbackOut L seed (L + 1) ++ pressOut seed 0
      rw [h3]
      simp [pressOut, symbols]
  | verify i =>
    left
    simp only [hp] at hpc
    obtain ⟨h1, h2⟩ := hpc
    rw [main_step_verify s io i hp]
    split_ifs with h4
    · exact ⟨hn, hs, hl, by omega, h2⟩
    · have h5 : i = L + 1 := by omega
      subst h5
      exact ⟨hn, hs, hl, h2⟩
  | poll i b =>
    left
    simp only [hp] at hpc
    rw [main_step_poll s io i b hp]
    split_ifs <;> exact ⟨hn, hs, hl, hpc⟩
  | idle i =>
    simp only [hp] at hpc
    rw [main_step_idle s io i hp]
    split_ifs
    · right
      exact Or.inl ⟨rfl, s.out, rfl⟩
    · left
      exact ⟨hn, hs, hl, hpc⟩
  | pressed i b =>
    simp only [hp] at hpc
    obtain ⟨h1, h2, h3⟩ := hpc
    rw [main_step_pressed s io i b hp]
    split_ifs with h4
    · right
      left
      refine ⟨game_over_pc _, ?_⟩
      obtain ⟨y, hy⟩ := game_over_out_ex (delay_loop_2 65535
          (play (simple_random4 (play b 45000 s)).1 20000 (delay_loop_2 10000
          (play (simple_random4 (play b 45000 s)).1 20000 (delay_loop_2 10000
          (play (simple_random4 (play b 45000 s)).1 20000 (delay_loop_2 10000
            (simple_random4 (play b 45000 s)).2)))))))
      exact ⟨_, hy⟩
    · left
      have hmod : (i + 1) % 256 = i + 1 := by omega
      have hb : b = symbolAt seed i := by
        have h5 : b = (simple_random4 (play b 45000 s)).1 := by
          by_contra hc
          exact h4 hc
        rw [h5]
        simp [simple_random4, play, symbolAt, lcgIter_succ, h2]
      unfold Round AwaitAt
      simp only [play, simple_random4, hmod, h2, h3, lcgIter_succ, pressOut_succ,
        List.append_assoc, ← hb]
      exact ⟨hn, hs, hl, by omega, trivial, trivial⟩
  | levelEnd =>
    right
    simp only [hp] at hpc
    obtain ⟨h2, h3⟩ := hpc
    rw [main_step_levelEnd s io hp]
    split_ifs with h4
    · right
      refine ⟨[Out.tone 0 25000, Out.tone 1 25000, Out.tone 2 25000, Out.tone 3 25000,
        Out.delay 45000], ?_⟩
      simp [play, level_up, delay_loop_2, h3]
    · left
      refine ⟨game_over_pc _, ?_⟩
      obtain ⟨y, hy⟩ := game_over_out_ex (level_up (delay_loop_2 65535 s))
      exact ⟨_, hy⟩

theorem phase_runs (L seed : Nat) (o : List Out) (es : List Event) (s : State) (hL : L ≤ 254)
    (h : Round L seed o s ∨ Done L seed o s) :
    Round L seed o (runs s es) ∨ Done L seed o (runs s es) := by
  induction es generalizing s with
  | nil => exact h
  | cons e es ih =>
    rw [runs_cons]
    apply ih
    rcases h with h | h
    · cases e with
      | tick b => exact Or.inl (round_tick L seed o s b h)
      | run io => exact round_run L seed o s io hL h
    · exact Or.inr (done_step L seed o s e h)


theorem roundHead_tick (L seed : Nat) (s : State) (b : Nat) (h : RoundHead L seed s) :
    RoundHead L seed (step s (.tick b)) := by
  rcases step_tick s b h.2.1 with h1 | h1 <;> rw [h1]
  · exact h
  · exact h

theorem playback_exit (L seed : Nat) (o : List Out) (s : State) (io : Nat) (hL : L ≤ 254)
    (h : PlaybackAt L seed o (L + 1) s) :
    Round L seed o (step s (.run io)) ∧ (step s (.run io)).pc = .verify 0 := by
  obtain ⟨h1, h2, h3, h4, h5, h6⟩ := h
  have hmod : (L + 1) % 256 = L + 1 := by omega
  rw [hmod] at h4
  have hgt : ¬ L + 1 ≤ s.level := by omega
  rw [step_run, main_step_playback s io _ h4, if_neg hgt]
  refine ⟨⟨h1, h2, h3, by omega, h2, ?_⟩, rfl⟩
  show s.out = o ++ playbackOut L seed (L + 1) ++ pressOut seed 0
  rw [h6]
  simp [pressOut, symbols]

theorem playback_pass (L seed : Nat) (s : State) (es : List Event) (h : RoundHead L seed s)
    (hL : L ≤ 254) (hc : runCount es = L + 3) :
    Round L seed s.out (runs s es) ∧ (runs s es).pc = .verify 0 := by
  obtain ⟨es1, es2, he, h1, h2⟩ := runCount_split es (L + 2) 1 hc
  rw [he, runs_append]
  have hp := playback_prefix L seed s es1 (L + 1) h.1 h.2.1 h.2.2.1 h.2.2.2 (by omega)
    (by omega) h1
  apply runs_one (PlaybackAt L seed s.out (L + 1))
    (fun t => Round L seed s.out t ∧ t.pc = .verify 0) _ _ _ _ es2 hp h2
  · intro t b ht
    exact playbackAt_tick L seed s.out (L + 1) t b ht
  · intro t io ht
    exact playback_exit L seed s.out t io hL ht
  · intro t b ht
    exact ⟨round_tick L seed s.out t b ht.1, by rw [(step_tick_pc_out t b).1]; exact ht.2⟩

theorem round_of_head (L seed : Nat) (s : State) (h : RoundHead L seed s) :
    Round L seed s.out s := by
  obtain ⟨h1, h2, h3, h4⟩ := h
  refine ⟨h2, h3, h4, ?_⟩
  simp [h1]

theorem done_not_target (L seed : Nat) (o : List Out) (s : State) (h : Done L seed o s) :
    s.out ≠ o ++ playbackOut L seed (L + 1) ++ pressOut seed (L + 1) := by
  intro heq
  rcases h with ⟨_, x, hx⟩ | ⟨x, hx⟩
  · rw [hx, pressOut_succ, ← List.append_assoc] at heq
    have h1 := (List.append_inj' heq rfl).2
    simp at h1
  · rw [hx] at heq
    have h1 := congrArg List.length heq
    simp at h1

theorem target_pc (L seed : Nat) (o : List Out) (s : State) (h : Round L seed o s)
    (hout : s.out = o ++ playbackOut L seed (L + 1) ++ pressOut seed (L + 1)) :
    s.pc = .verify (L + 1) ∨ s.pc = .levelEnd := by
  obtain ⟨_, _, _, hpc⟩ := h
  cases hp : s.pc with
  | boot => simp [hp] at hpc
  | entropy => simp [hp] at hpc
  | modeSelect => simp [hp] at hpc
  | asleep => simp [hp] at hpc
  | roundStart =>
    simp only [hp] at hpc
    rw [hpc] at hout
    have h1 := congrArg List.length hout
    simp [playbackOut_length, pressOut_length] at h1
  | playback i =>
    simp only [hp] at hpc
    rw [hpc.2.2] at hout
    have h1 := congrArg List.length hout
    simp [playbackOut_length, pressOut_length] at h1
    omega
  | verify i =>
    simp only [hp, AwaitAt] at hpc
    rw [hpc.2.2] at hout
    have h1 := congrArg List.length hout
    simp [playbackOut_length, pressOut_length] at h1
    left
    rw [h1]
  | poll i b =>
    simp only [hp, AwaitAt] at hpc
    rw [hpc.2.2] at hout
    have h1 := congrArg List.length hout
    simp [playbackOut_length, pressOut_length] at h1
    omega
  | idle i =>
    simp only [hp, AwaitAt] at hpc
    rw [hpc.2.2] at hout
    have h1 := congrArg List.length hout
    simp [playbackOut_length, pressOut_length] at h1
    omega
  | pressed i b =>
    simp only [hp, AwaitAt] at hpc
    rw [hpc.2.2] at hout
    have h1 := congrArg List.length hout
    simp [playbackOut_length, pressOut_length] at h1
    omega
  | levelEnd => right; rfl

theorem verify_last (L seed : Nat) (o : List Out) (s : State) (io : Nat)
    (h : Round L seed o s ∧ s.pc = .verify (L + 1)) :
    Round L seed o (step s (.run io)) ∧ (step s (.run io)).pc = .levelEnd := by
  obtain ⟨⟨hn, hs, hl, hpc⟩, hp⟩ := h
  simp only [hp] at hpc
  have hgt : ¬ L + 1 ≤ s.level := by omega
  rw [step_run, main_step_verify s io _ hp, if_neg hgt]
  exact ⟨⟨hn, hs, hl, hpc.2⟩, rfl⟩

theorem levelEnd_next (L seed : Nat) (o : List Out) (s : State) (io : Nat) (hL : L < 254)
    (h : Round L seed o s ∧ s.pc = .levelEnd) : RoundHead (L + 1) seed (step s (.run io)) := by
  obtain ⟨⟨hn, hs, hl, _⟩, hp⟩ := h
  have hlt : s.level < 254 := by omega
  have hmod : (s.level + 1) % 256 = L + 1 := by omega
  rw [step_run, main_step_levelEnd s io hp, if_pos hlt]
  exact ⟨rfl, hn, hs, hmod⟩

theorem round_pc_tick (L seed : Nat) (o : List Out) (c : PC) (s : State) (b : Nat)
    (h : Round L seed o s ∧ s.pc = c) :
    Round L seed o (step s (.tick b)) ∧ (step s (.tick b)).pc = c :=
  ⟨round_tick L seed o s b h.1, by rw [(step_tick_pc_out s b).1]; exact h.2⟩

theorem after_recall (L seed : Nat) (o : List Out) (s : State) (es : List Event) (hL : L < 254)
    (h : Round L seed o s)
    (hout : s.out = o ++ playbackOut L seed (L + 1) ++ pressOut seed (L + 1))
    (hc : runCount es = if s.pc = .levelEnd then 1 else 2) :
    RoundHead (L + 1) seed (runs s es) := by
  rcases target_pc L seed o s h hout with hp | hp
  · rw [hp] at hc
    simp only [reduceCtorEq, if_false] at hc
    obtain ⟨es1, es2, he, h1, h2⟩ := runCount_split es 1 1 hc
    rw [he, runs_append]
    have hmid := runs_one (fun t => Round L seed o t ∧ t.pc = .verify (L + 1))
      (fun t => Round L seed o t ∧ t.pc = .levelEnd)
      (round_pc_tick L seed o _) (verify_last L seed o) (round_pc_tick L seed o _)
      s es1 ⟨h, hp⟩ h1
    exact runs_one (fun t => Round L seed o t ∧ t.pc = .levelEnd) (RoundHead (L + 1) seed)
      (round_pc_tick L seed o _) (fun t io ht => levelEnd_next L seed o t io hL ht)
      (roundHead_tick (L + 1) seed) _ es2 hmid h2
  · rw [hp] at hc
    simp only [if_true] at hc
    exact runs_one (fun t => Round L seed o t ∧ t.pc = .levelEnd) (RoundHead (L + 1) seed)
      (round_pc_tick L seed o _) (fun t io ht => levelEnd_next L seed o t io hL ht)
      (roundHead_tick (L + 1) seed) s es ⟨h, hp⟩ hc


/-! ## Determinism of the generator and the level step -/

theorem game_of_head (s : State) (hpc : s.pc = .roundStart) (hn : s.nrot = 0)
    (hl : s.level < 256) : Game s.seed s := by
  refine ⟨hn, rfl, hl, ?_⟩
  simp [hpc]

theorem compared_symbol (seed : Nat) (s : State) (i b : Nat) (h : Game seed s)
    (hpc : s.pc = .pressed i b) :
    i ≤ s.level ∧ (simple_random4 s).1 = symbolAt seed i := by
  obtain ⟨_, hs, _, hp⟩ := h
  simp only [hpc, AwaitInv] at hp
  refine ⟨hp.1, ?_⟩
  simp [simple_random4, symbolAt, lcgIter_succ, hp.2.2.1, hs]

/-- C1: `reset_context()` followed by `n` calls of `simple_random4()` returns a
list of symbols that depends on the seed only, whatever the context was before
and however the two states differ otherwise.  In the game: from the head of
the game loop, the first `n` iterations of the playback loop play exactly that
list, and whenever a recognised press is compared at position `i`, in this or
a later round of the session, the value it is compared against is element `i`
of the list the playback pass of that round plays. -/
theorem generator_determinism (s0 : State) (hpc : s0.pc = .roundStart) (hn : s0.nrot = 0)
    (hl : s0.level < 256) :
    (∀ (s1 s2 : State) (n : Nat), s1.seed = s2.seed →
      draw n (reset_context s1) = draw n (reset_context s2)) ∧
    (∀ (n : Nat) (es : List Event), n ≤ s0.level + 1 → runCount es = n + 1 →
      (runs s0 es).out = s0.out ++ playbackOut s0.level s0.seed n ∧
      tonesOf (playbackOut s0.level s0.seed n) = draw n (reset_context s0)) ∧
    (∀ (es : List Event) (i b : Nat), (runs s0 es).pc = .pressed i b →
      i ≤ (runs s0 es).level ∧
      (draw ((runs s0 es).level + 1) (reset_context s0))[i]? =
        some (simple_random4 (runs s0 es)).1) := by
  refine ⟨?_, ?_, ?_⟩
  · intro s1 s2 n h
    rw [draw_reset, draw_reset, h]
  · intro n es hle hc
    have h := playback_prefix s0.level s0.seed s0 es n hpc hn rfl rfl hl hle hc
    exact ⟨h.2.2.2.2.2, by rw [tonesOf_playbackOut, draw_reset]⟩
  · intro es i b hp
    have hg := game_runs s0.seed es s0 (game_of_head s0 hpc hn hl)
    obtain ⟨h1, h2⟩ := compared_symbol s0.seed (runs s0 es) i b hg hp
    refine ⟨h1, ?_⟩
    rw [draw_reset, h2]
    exact symbols_get s0.seed _ i (by omega)

/-- Witness of C1: the first playback iteration of a game with seed 0. -/
theorem generator_determinism_witness :
    (runs freshRound [.run 0, .tick 9, .run 0]).out =
      freshRound.out ++ playbackOut freshRound.level freshRound.seed 1 ∧
    tonesOf (playbackOut freshRound.level freshRound.seed 1) = draw 1 (reset_context freshRound) :=
  (generator_determinism freshRound rfl rfl (by decide)).2.1 1 [.run 0, .tick 9, .run 0]
    (by decide) rfl

/-- C2: at a level `L < 254`, from the head of the game loop the playback pass
takes `L + 3` blocks and plays exactly `L + 1` symbols, the first `L + 1`
outputs of `simple_random4` from `context = seed`.  Whenever the trace is that
of the playback followed by `L + 1` recognised presses equal to those symbols
in order, the next blocks of the main flow (one if the machine already stands
after the verification loop, two otherwise) lead to the head of the game loop
with level `L + 1` and the same seed, and the next playback pass plays exactly
`L + 2` symbols of which the first `L + 1` are the same as before. -/
theorem level_step (s0 : State) (L seed : Nat) (hpc : s0.pc = .roundStart) (hn : s0.nrot = 0)
    (hseed : s0.seed = seed) (hlev : s0.level = L) (hL : L < 254) :
    (∀ es : List Event, runCount es = L + 3 →
      (runs s0 es).pc = .verify 0 ∧
      (runs s0 es).out = s0.out ++ playbackOut L seed (L + 1) ∧
      (runs s0 es).level = L ∧ (runs s0 es).seed = seed) ∧
    tonesOf (playbackOut L seed (L + 1)) = draw (L + 1) (reset_context s0) ∧
    (tonesOf (playbackOut L seed (L + 1))).length = L + 1 ∧
    tonesOf (pressOut seed (L + 1)) = tonesOf (playbackOut L seed (L + 1)) ∧
    (∀ es : List Event,
      (runs s0 es).out = s0.out ++ playbackOut L seed (L + 1) ++ pressOut seed (L + 1) →
      ∀ es2 : List Event,
        runCount es2 = (if (runs s0 es).pc = .levelEnd then 1 else 2) →
        (runs (runs s0 es) es2).pc = .roundStart ∧
        (runs (runs s0 es) es2).level = L + 1 ∧
        (runs (runs s0 es) es2).seed = seed ∧
        ∀ es3 : List Event, runCount es3 = L + 4 →
          (runs (runs (runs s0 es) es2) es3).pc = .verify 0 ∧
          (runs (runs (runs s0 es) es2) es3).out =
            (runs (runs s0 es) es2).out ++ playbackOut (L + 1) seed (L + 2)) ∧
    tonesOf (playbackOut (L + 1) seed (L + 2)) = draw (L + 2) (reset_context s0) ∧
    (tonesOf (playbackOut (L + 1) seed (L + 2))).length = L + 2 ∧
    (tonesOf (playbackOut (L + 1) seed (L + 2))).take (L + 1) =
      tonesOf (playbackOut L seed (L + 1)) := by
  have h0 : RoundHead L seed s0 := ⟨hpc, hn, hseed, hlev⟩
  have hd : ∀ n, draw n (reset_context s0) = symbols seed n := by
    intro n
    rw [draw_reset, hseed]
  refine ⟨?_, ?_, ?_, ?_, ?_, ?_, ?_, ?_⟩
  · intro es hc
    obtain ⟨hr, hp⟩ := playback_pass L seed s0 es h0 (by omega) hc
    obtain ⟨_, hs, hl, hm⟩ := hr
    simp only [hp, AwaitAt] at hm
    refine ⟨hp, ?_, hl, hs⟩
    rw [hm.2.2]
    simp [pressOut, symbols]
  · rw [tonesOf_playbackOut, hd]
  · rw [tonesOf_playbackOut, symbols_length]
  · rw [tonesOf_pressOut, tonesOf_playbackOut]
  · intro es hout es2 hc
    have hph := phase_runs L seed s0.out es s0 (by omega) (Or.inl (round_of_head L seed s0 h0))
    rcases hph with hr | hd2
    · have hnext := after_recall L seed s0.out (runs s0 es) es2 hL hr hout hc
      refine ⟨hnext.1, hnext.2.2.2, hnext.2.2.1, ?_⟩
      intro es3 hc3
      obtain ⟨hr3, hp3⟩ := playback_pass (L + 1) seed _ es3 hnext (by omega) hc3
      obtain ⟨_, _, _, hm⟩ := hr3
      simp only [hp3, AwaitAt] at hm
      refine ⟨hp3, ?_⟩
      rw [hm.2.2]
      simp [pressOut, symbols]
    · exact absurd hout (done_not_target L seed s0.out _ hd2)
  · rw [tonesOf_playbackOut, hd]
  · rw [tonesOf_playbackOut, symbols_length]
  · rw [tonesOf_playbackOut, tonesOf_playbackOut]
    exact symbols_take seed (L + 2) (L + 1) (by omega)

/-- Witness of C2: seed 0, level 0.  One symbol is played, the matching press
of button 3 is recognised, the level becomes 1 and two symbols are played. -/
theorem level_step_witness :
    (runs (runs freshRound playAndPress) [.run 0, .tick 0, .run 0]).level = 0 + 1 ∧
    (runs (runs (runs freshRound playAndPress) [.run 0, .tick 0, .run 0])
        [.run 0, .run 0, .run 0, .run 0]).out =
      (runs (runs freshRound playAndPress) [.run 0, .tick 0, .run 0]).out ++
        playbackOut (0 + 1) 0 (0 + 2) :=
  ⟨((level_step freshRound 0 0 rfl rfl rfl rfl (by decide)).2.2.2.2.1 playAndPress
      (by decide) [.run 0, .tick 0, .run 0] (by decide)).2.1,
   (((level_step freshRound 0 0 rfl rfl rfl rfl (by decide)).2.2.2.2.1 playAndPress
      (by decide) [.run 0, .tick 0, .run 0] (by decide)).2.2.2
      [.run 0, .run 0, .run 0, .run 0] (by decide)).2⟩


/-! ## The symbol as a function of the context -/

theorem fold4_lt (c : Nat) : fold4 c < 4 := by
  unfold fold4
  exact Nat.and_lt_two_pow _ (n := 2) (by decide)

theorem fold4_bit0 (c : Nat) :
    (fold4 c).testBit 0 =
      Bool.xor (c.testBit 0) (Bool.xor (c.testBit 2) (Bool.xor (c.testBit 4)
        (Bool.xor (c.testBit 6) (Bool.xor (c.testBit 8) (Bool.xor (c.testBit 10)
          (Bool.xor (c.testBit 12) (c.testBit 14))))))) := by
  have h3 : Nat.testBit 3 0 = true := by decide
  simp only [fold4, Nat.testBit_and, Nat.testBit_xor, Nat.testBit_shiftRight,
    Nat.testBit_mod_two_pow, h3, (by decide : (256 : Nat) = 2 ^ 8), Nat.add_zero,
    Nat.reduceAdd, Nat.reduceLT, decide_True, Bool.true_and, Bool.and_true]
  generalize c.testBit 0 = b0
  generalize c.testBit 2 = b2
  generalize c.testBit 4 = b4
  generalize c.testBit 6 = b6
  generalize c.testBit 8 = b8
  generalize c.testBit 10 = b10
  generalize c.testBit 12 = b12
  generalize c.testBit 14 = b14
  cases b0 <;> cases b2 <;> cases b4 <;> cases b6 <;> cases b8 <;> cases b10 <;>
    cases b12 <;> cases b14 <;> rfl

theorem fold4_bit1 (c : Nat) :
    (fold4 c).testBit 1 =
      Bool.xor (c.testBit 1) (Bool.xor (c.testBit 3) (Bool.xor (c.testBit 5)
        (Bool.xor (c.testBit 7) (Bool.xor (c.testBit 9) (Bool.xor (c.testBit 11)
          (Bool.xor (c.testBit 13) (c.testBit 15))))))) := by
  have h3 : Nat.testBit 3 1 = true := by decide
  simp only [fold4, Nat.testBit_and, Nat.testBit_xor, Nat.testBit_shiftRight,
    Nat.testBit_mod_two_pow, h3, (by decide : (256 : Nat) = 2 ^ 8), Nat.add_zero,
    Nat.reduceAdd, Nat.reduceLT, decide_True, Bool.true_and, Bool.and_true]
  generalize c.testBit 1 = b0
  generalize c.testBit 3 = b2
  generalize c.testBit 5 = b4
  generalize c.testBit 7 = b6
  generalize c.testBit 9 = b8
  generalize c.testBit 11 = b10
  generalize c.testBit 13 = b12
  generalize c.testBit 15 = b14
  cases b0 <;> cases b2 <;> cases b4 <;> cases b6 <;> cases b8 <;> cases b10 <;>
    cases b12 <;> cases b14 <;> rfl

theorem two_bits (x : Nat) (h : x < 4) :
    x = (x.testBit 0).toNat + 2 * (x.testBit 1).toNat := by
  interval_cases x <;> decide

theorem testBit_low16 (c k : Nat) (h : k < 16) : (c % 65536).testBit k = c.testBit k := by
  rw [(by decide : (65536 : Nat) = 2 ^ 16), Nat.testBit_mod_two_pow]
  simp [h]

/-- C20: with `c' = (context * 1103515245 + 12345) mod 2^32`, `simple_random4`
sets `context` to `c'` and returns the two-bit value whose bit 0 is the XOR of
the bits 0, 2, ..., 14 of `c'` and whose bit 1 is the XOR of the bits 1, 3, ...,
15 of `c'`; the symbol is below 4 and depends on the low 16 bits of `c'`
only. -/
theorem symbol_closed_form (s : State) :
    (simple_random4 s).2.context = (s.context * 1103515245 + 12345) % 2 ^ 32 ∧
    (simple_random4 s).2 = { s with context := (s.context * 1103515245 + 12345) % 2 ^ 32 } ∧
    (simple_random4 s).1 = fold4 ((s.context * 1103515245 + 12345) % 2 ^ 32) ∧
    (∀ c : Nat,
      fold4 c =
        (Bool.xor (c.testBit 0) (Bool.xor (c.testBit 2) (Bool.xor (c.testBit 4)
          (Bool.xor (c.testBit 6) (Bool.xor (c.testBit 8) (Bool.xor (c.testBit 10)
            (Bool.xor (c.testBit 12) (c.testBit 14)))))))).toNat +
        2 * (Bool.xor (c.testBit 1) (Bool.xor (c.testBit 3) (Bool.xor (c.testBit 5)
          (Bool.xor (c.testBit 7) (Bool.xor (c.testBit 9) (Bool.xor (c.testBit 11)
            (Bool.xor (c.testBit 13) (c.testBit 15)))))))).toNat) ∧
    (∀ c : Nat, fold4 c < 4) ∧
    (∀ c : Nat, fold4 c = fold4 (c % 65536)) := by
  have hform : ∀ c : Nat,
      fold4 c =
        (Bool.xor (c.testBit 0) (Bool.xor (c.testBit 2) (Bool.xor (c.testBit 4)
          (Bool.xor (c.testBit 6) (Bool.xor (c.testBit 8) (Bool.xor (c.testBit 10)
            (Bool.xor (c.testBit 12) (c.testBit 14)))))))).toNat +
        2 * (Bool.xor (c.testBit 1) (Bool.xor (c.testBit 3) (Bool.xor (c.testBit 5)
          (Bool.xor (c.testBit 7) (Bool.xor (c.testBit 9) (Bool.xor (c.testBit 11)
            (Bool.xor (c.testBit 13) (c.testBit 15)))))))).toNat := by
    intro c
    rw [← fold4_bit0, ← fold4_bit1]
    exact two_bits (fold4 c) (fold4_lt c)
  refine ⟨by simp [simple_random4, lcg], by simp [simple_random4, lcg],
    by simp [simple_random4, lcg], hform, fold4_lt, ?_⟩
  intro c
  rw [hform c, hform (c % 65536)]
  simp only [testBit_low16 c _ (by decide : 0 < 16), testBit_low16 c _ (by decide : 1 < 16),
    testBit_low16 c _ (by decide : 2 < 16), testBit_low16 c _ (by decide : 3 < 16),
    testBit_low16 c _ (by decide : 4 < 16), testBit_low16 c _ (by decide : 5 < 16),
    testBit_low16 c _ (by decide : 6 < 16), testBit_low16 c _ (by decide : 7 < 16),
    testBit_low16 c _ (by decide : 8 < 16), testBit_low16 c _ (by decide : 9 < 16),
    testBit_low16 c _ (by decide : 10 < 16), testBit_low16 c _ (by decide : 11 < 16),
    testBit_low16 c _ (by decide : 12 < 16), testBit_low16 c _ (by decide : 13 < 16),
    testBit_low16 c _ (by decide : 14 < 16), testBit_low16 c _ (by decide : 15 < 16)]


/-! ## Indices of the tones -/

theorem mem_tonesOf (o : List Out) (i p : Nat) (h : Out.tone i p ∈ o) : i ∈ tonesOf o := by
  induction o with
  | nil => cases h
  | cons x o ih =>
    rcases List.mem_cons.1 h with h1 | h1
    · subst h1
      simp [tonesOf]
    · cases x <;> simp [tonesOf, ih h1]

theorem ok4_tone (o : List Out) (i p : Nat) (h : Ok4 o) (hi : i < 4) :
    Ok4 (o ++ [Out.tone i p]) := by
  intro x hx
  rw [tonesOf_append] at hx
  rcases List.mem_append.1 hx with h1 | h1
  · exact h x h1
  · simp only [tonesOf, List.mem_singleton] at h1
    omega

theorem ok4_delay (o : List Out) (n : Nat) (h : Ok4 o) : Ok4 (o ++ [Out.delay n]) := by
  intro x hx
  rw [tonesOf_append] at hx
  simpa [tonesOf] using h x (by simpa [tonesOf] using hx)

theorem ok4_sleep (o : List Out) (h : Ok4 o) : Ok4 (o ++ [Out.sleep]) := by
  intro x hx
  rw [tonesOf_append] at hx
  simpa [tonesOf] using h x (by simpa [tonesOf] using hx)

theorem ok4_play (i p : Nat) (s : State) (h : Ok4 s.out) (hi : i < 4) : Ok4 (play i p s).out := by
  rw [out_play]
  exact ok4_tone _ i p h hi

theorem ok4_delay_loop (n : Nat) (s : State) (h : Ok4 s.out) : Ok4 (delay_loop_2 n s).out := by
  rw [out_delay]
  exact ok4_delay _ _ h

theorem ok4_random (s : State) (h : Ok4 s.out) : Ok4 (simple_random4 s).2.out := by
  rw [out_random]
  exact h

theorem random_lt (s : State) : (simple_random4 s).1 < 4 := by
  simp only [simple_random4]
  exact fold4_lt _

theorem ok4_level_up (s : State) (h : Ok4 s.out) : Ok4 (level_up s).out := by
  unfold level_up
  exact ok4_play 3 _ _ (ok4_play 2 _ _ (ok4_play 1 _ _ (ok4_play 0 _ _ h (by decide))
    (by decide)) (by decide)) (by decide)

theorem game_over_out_eq (s : State) :
    (game_over s).out = s.out ++ [Out.tone 3 25000, Out.tone 2 25000, Out.tone 1 25000,
        Out.tone 0 25000] ++
      (if s.max_level < s.level then
        [Out.tone 0 25000, Out.tone 1 25000, Out.tone 2 25000, Out.tone 3 25000,
         Out.tone 0 25000, Out.tone 1 25000, Out.tone 2 25000, Out.tone 3 25000,
         Out.tone 0 25000, Out.tone 1 25000, Out.tone 2 25000, Out.tone 3 25000]
       else []) ++ [Out.sleep] := by
  unfold game_over
  by_cases h : s.max_level < s.level <;> simp [h, play, sleep_now, level_up]

theorem ok4_game_over (s : State) (h : Ok4 s.out) : Ok4 (game_over s).out := by
  rw [game_over_out_eq]
  intro x hx
  simp only [tonesOf_append] at hx
  rcases List.mem_append.1 hx with h1 | h1
  · rcases List.mem_append.1 h1 with h2 | h2
    · rcases List.mem_append.1 h2 with h3 | h3
      · exact h x h3
      · simp [tonesOf] at h3
        omega
    · split_ifs at h2
      · simp [tonesOf] at h2
        omega
      · simp [tonesOf] at h2
  · simp [tonesOf] at h1

theorem toneOk_step (s : State) (e : Event) (h : ToneOk s) : ToneOk (step s e) := by
  obtain ⟨ho, hb⟩ := h
  cases e with
  | tick t =>
    refine ⟨by rw [(step_tick_pc_out s t).2]; exact ho, ?_⟩
    intro i b hp
    rw [(step_tick_pc_out s t).1] at hp
    exact hb i b hp
  | run io =>
    rw [step_run]
    cases hp : s.pc with
    | boot =>
      rw [main_step_boot s io hp]
      exact ⟨ho, fun i b h => by cases h⟩
    | entropy =>
      rw [main_step_entropy s io hp]
      split_ifs
      · exact ⟨ho, hb⟩
      · exact ⟨ho, fun i b h => by cases h⟩
    | modeSelect =>
      rw [main_step_modeSelect s io hp, mode_select_eq]
      split_ifs <;> exact ⟨ho, fun i b h => by cases h⟩
    | roundStart =>
      rw [main_step_roundStart s io hp]
      exact ⟨ho, fun i b h => by cases h⟩
    | playback i =>
      rw [main_step_playback s io i hp]
      split_ifs
      · refine ⟨?_, fun i b h => by cases h⟩
        exact ok4_play _ _ _ (ok4_random _ (ok4_delay_loop _ _ ho)) (random_lt _)
      · exact ⟨ho, fun i b h => by cases h⟩
    | verify i =>
      rw [main_step_verify s io i hp]
      split_ifs <;> exact ⟨ho, fun i b h => by cases h⟩
    | poll i b =>
      rw [main_step_poll s io i b hp]
      split_ifs with h1 h2 h3 h4 h5
      · refine ⟨ho, ?_⟩
        intro i2 b2 h
        cases h
        exact h1
      · exact ⟨ho, fun i b h => by cases h⟩
      · exact ⟨ho, fun i b h => by cases h⟩
      · exact ⟨ho, fun i b h => by cases h⟩
      · exact ⟨ho, fun i b h => by cases h⟩
      · exact ⟨ho, fun i b h => by cases h⟩
    | idle i =>
      rw [main_step_idle s io i hp]
      split_ifs
      · exact ⟨ok4_sleep _ ho, fun i b h => by cases h⟩
      · exact ⟨ho, fun i b h => by cases h⟩
    | pressed i b =>
      have hb4 : b < 4 := hb i b hp
      rw [main_step_pressed s io i b hp]
      have h1 : Ok4 (simple_random4 (play b 45000 s)).2.out :=
        ok4_random _ (ok4_play b _ _ ho hb4)
      have hc := random_lt (play b 45000 s)
      split_ifs
      · refine ⟨?_, ?_⟩
        · apply ok4_game_over
          apply ok4_delay_loop
          apply ok4_play _ _ _ _ hc
          apply ok4_delay_loop
          apply ok4_play _ _ _ _ hc
          apply ok4_delay_loop
          apply ok4_play _ _ _ _ hc
          apply ok4_delay_loop
          exact h1
        · intro i2 b2 h
          rw [game_over_pc] at h
          cases h
      · exact ⟨h1, fun i b h => by cases h⟩
    | levelEnd =>
      rw [main_step_levelEnd s io hp]
      split_ifs
      · refine ⟨?_, fun i b h => by cases h⟩
        apply ok4_delay_loop
        apply ok4_level_up
        exact ok4_delay_loop 65535 s ho
      · refine ⟨?_, ?_⟩
        · apply ok4_game_over
          apply ok4_level_up
          exact ok4_delay_loop 65535 s ho
        · intro i2 b2 h
          rw [game_over_pc] at h
          cases h
    | asleep =>
      rw [main_step_asleep s io hp]
      exact ⟨ho, hb⟩

theorem toneOk_runs (s : State) (es : List Event) (h : ToneOk s) : ToneOk (runs s es) := by
  induction es generalizing s with
  | nil => exact h
  | cons e es ih => rw [runs_cons]; exact ih _ (toneOk_step s e h)

theorem toneOk_init (e : Eeprom) : ToneOk (init e) :=
  ⟨fun x hx => (by cases hx), fun i b h => (by cases h)⟩

theorem play_registers_some (i : Nat) (h : i < 4) : (play_registers i).isSome = true := by
  interval_cases i <;> decide

/-- C17: `simple_random4` returns a value in 0..3 for every context, and in
every execution from reset every call of `play` (recorded as a tone in the
trace) has an index in 0..3, so that both table lookups of `play` succeed. -/
theorem play_index_in_bounds (e : Eeprom) (es : List Event) :
    (∀ s : State, (simple_random4 s).1 < 4) ∧
    (∀ i p : Nat, Out.tone i p ∈ (runs (init e) es).out →
      i < 4 ∧ i < buttons.length ∧ i < tones.length ∧ (play_registers i).isSome = true) ∧
    (∀ i p : Nat, ∀ s : State, (play i p s).out = s.out ++ [Out.tone i p]) := by
  refine ⟨random_lt, ?_, fun i p s => rfl⟩
  intro i p h
  have h4 : i < 4 := (toneOk_runs (init e) es (toneOk_init e)).1 i (mem_tonesOf _ i p h)
  exact ⟨h4, h4, h4, play_registers_some i h4⟩

/-- Witness of C17: the tone played in the first playback iteration after a
boot. -/
theorem play_index_in_bounds_witness :
    3 < 4 ∧ 3 < buttons.length ∧ 3 < tones.length ∧ (play_registers 3).isSome = true :=
  (play_index_in_bounds Eeprom.erased bootAndPlay).2.1 3 45000 (by decide)


/-! ## Buttons, tones and boot patterns -/

theorem land_mask (pinb m : Nat) : pinb &&& m &&& 0x1d = (pinb &&& 0x1d) &&& m := by
  rw [Nat.land_assoc, Nat.land_comm m, ← Nat.land_assoc]

theorem mask_lt (pinb : Nat) : pinb &&& 0x1d < 32 :=
  Nat.and_lt_two_pow pinb (n := 5) (by decide)

theorem active_iff (pinb b : Nat) :
    active pinb b = true ↔ (pinb &&& 0x1d) &&& buttons.getD b 0 = 0 := by
  unfold active
  rw [land_mask]
  simp

theorem one_low_table :
    ∀ v : Nat, v < 32 → ∀ b : Nat, b < 4 → v = 0x1d ^^^ (buttons.getD b 0 &&& 0x1d) →
      (v &&& buttons.getD b 0 = 0 ∧
        ∀ b2 : Nat, b2 < 4 → v &&& buttons.getD b2 0 = 0 → b2 = b) := by
  decide

theorem pattern_table :
    ∀ v : Nat, v < 32 →
      ((v = 0x19 ↔ v = 0x1d ^^^ (buttons.getD 1 0 &&& 0x1d)) ∧
       (v = 0x1c ↔ v = 0x1d ^^^ (buttons.getD 2 0 &&& 0x1d)) ∧
       (v = 0x0d ↔ v = 0x1d ^^^ (buttons.getD 3 0 &&& 0x1d)) ∧
       (v = 0x15 ↔ v = 0x1d ^^^ (buttons.getD 0 0 &&& 0x1d))) := by
  decide

/-- C18: restricted to the input bits, the four button masks are the four
distinct single bits 8, 4, 1 and 16, and the four tone periods are pairwise
distinct.  For every reading of `PINB` in which exactly the bit of button `b`
is low among the four, the polling test holds for `b` and for no other button.
The boot patterns `0x19`, `0x1c`, `0x0d` and `0x15` are the readings of
`PINB & 0x1d` in which exactly the bit of button 1, 2, 3 and 0 is low. -/
theorem button_mapping (pinb : Nat) :
    (List.range 4).map (fun i => buttons.getD i 0 &&& 0x1d) = [2 ^ 3, 2 ^ 2, 2 ^ 0, 2 ^ 4] ∧
    ((List.range 4).map (fun i => buttons.getD i 0 &&& 0x1d)).Nodup ∧
    tones.Nodup ∧ buttons.length = 4 ∧ tones.length = 4 ∧
    (∀ b : Nat, b < 4 → pinb &&& 0x1d = 0x1d ^^^ (buttons.getD b 0 &&& 0x1d) →
      active pinb b = true ∧ ∀ b2 : Nat, b2 < 4 → active pinb b2 = true → b2 = b) ∧
    (pinb &&& 0x1d = 0x19 ↔ pinb &&& 0x1d = 0x1d ^^^ (buttons.getD 1 0 &&& 0x1d)) ∧
    (pinb &&& 0x1d = 0x1c ↔ pinb &&& 0x1d = 0x1d ^^^ (buttons.getD 2 0 &&& 0x1d)) ∧
    (pinb &&& 0x1d = 0x0d ↔ pinb &&& 0x1d = 0x1d ^^^ (buttons.getD 3 0 &&& 0x1d)) ∧
    (pinb &&& 0x1d = 0x15 ↔ pinb &&& 0x1d = 0x1d ^^^ (buttons.getD 0 0 &&& 0x1d)) := by
  have hp := pattern_table (pinb &&& 0x1d) (mask_lt pinb)
  refine ⟨by decide, by decide, by decide, rfl, rfl, ?_, hp.1, hp.2.1, hp.2.2.1, hp.2.2.2⟩
  intro b hb hv
  have h1 := one_low_table (pinb &&& 0x1d) (mask_lt pinb) b hb hv
  refine ⟨(active_iff pinb b).2 h1.1, ?_⟩
  intro b2 hb2 ha
  exact h1.2 b2 hb2 ((active_iff pinb b2).1 ha)

/-- Witness of C18: with `PINB = 0x0d` only button 3 passes the polling test. -/
theorem button_mapping_witness :
    active 0x0d 3 = true ∧ ∀ b2 : Nat, b2 < 4 → active 0x0d b2 = true → b2 = 3 :=
  (button_mapping 0x0d).2.2.2.2.2.1 3 (by decide) (by decide)


/-! ## Tone duration and pacing delay of the playback pass -/

theorem playback_body (s : State) (io i : Nat) (hpc : s.pc = .playback i) (hi : i ≤ s.level) :
    (step s (.run io)).out =
      s.out ++ [Out.delay (pace s.level % 65536), Out.tone (simple_random4 s).1 45000] := by
  rw [step_run, main_step_playback s io i hpc, if_pos hi]
  simp [play, simple_random4, delay_loop_2]

theorem periodsOf_append (a b : List Out) : periodsOf (a ++ b) = periodsOf a ++ periodsOf b := by
  induction a with
  | nil => rfl
  | cons x a ih => cases x <;> simp [periodsOf, ih]

theorem delaysOf_append (a b : List Out) : delaysOf (a ++ b) = delaysOf a ++ delaysOf b := by
  induction a with
  | nil => rfl
  | cons x a ih => cases x <;> simp [delaysOf, ih]

theorem pace_antitone (l1 l2 : Nat) (h : l1 ≤ l2) : pace l2 ≤ pace l1 := by
  unfold pace
  have h1 : 489088 / (8 + l2) ≤ 489088 / (8 + l1) :=
    Nat.div_le_div_left (by omega) (by omega)
  omega

theorem pace_le (level : Nat) (h : 1 ≤ level) : pace level ≤ 58743 :=
  pace_antitone 1 level h

theorem playback_body_traces (s : State) (io i : Nat) (hpc : s.pc = .playback i)
    (hi : i ≤ s.level) :
    periodsOf (step s (.run io)).out = periodsOf s.out ++ [45000] ∧
    delaysOf (step s (.run io)).out = delaysOf s.out ++ [pace s.level % 65536] := by
  rw [playback_body s io i hpc hi, periodsOf_append, delaysOf_append]
  exact ⟨rfl, rfl⟩

/-- C13 (amended): the playback pass plays every symbol with the same duration
45000 at every level; what changes with the level is the pacing delay before
the tone. -/
theorem playback_tone_period (s : State) (io i : Nat) (hpc : s.pc = .playback i)
    (hi : i ≤ s.level) :
    periodsOf (step s (.run io)).out = periodsOf s.out ++ [45000] ∧
    delaysOf (step s (.run io)).out = delaysOf s.out ++ [pace s.level % 65536] :=
  playback_body_traces s io i hpc hi

/-- Witness of C13: the first playback iteration at level 7. -/
theorem playback_tone_period_witness :
    periodsOf (step (playbackAt 7) (.run 0)).out = periodsOf (playbackAt 7).out ++ [45000] :=
  (playback_tone_period (playbackAt 7) 0 0 rfl (by decide)).1

/-- Counterexample to C13 as stated: at level 0 and at level 1 the symbol is
played with the same duration 45000, so the duration at the higher level is
not shorter. -/
theorem playback_tone_period_counterexample :
    periodsOf (step (playbackAt 0) (.run 0)).out = [45000] ∧
    periodsOf (step (playbackAt 1) (.run 0)).out = [45000] ∧ ¬ (45000 < 45000) := by
  decide

/-- C14 (amended): for every level from 1 to 255 the value
`4400 + 489088 / (8 + level)` is at most 58743, fits in 16 bits and is the
argument that the playback loop passes to the delay primitive; at level 0 the
value is 65536, which does not fit, and the argument passed is 0; the value is
non-increasing in the level. -/
theorem pacing_delay (s : State) (io i : Nat) (hpc : s.pc = .playback i) (hi : i ≤ s.level) :
    delaysOf (step s (.run io)).out = delaysOf s.out ++ [pace s.level % 65536] ∧
    (1 ≤ s.level → pace s.level ≤ 65535 ∧ pace s.level % 65536 = pace s.level) ∧
    (s.level = 0 → pace s.level = 65536 ∧ pace s.level % 65536 = 0) ∧
    (∀ l1 l2 : Nat, l1 ≤ l2 → pace l2 ≤ pace l1) ∧
    (∀ l : Nat, pace l = 4400 + 489088 / (8 + l)) := by
  refine ⟨(playback_body_traces s io i hpc hi).2, ?_, ?_, pace_antitone, fun l => rfl⟩
  · intro h
    have h1 := pace_le s.level h
    exact ⟨by omega, by omega⟩
  · intro h
    rw [h]
    exact ⟨by decide, by decide⟩

/-- Witness of C14: at level 1 the delay requested is 58743. -/
theorem pacing_delay_witness :
    delaysOf (step (playbackAt 1) (.run 0)).out = delaysOf (playbackAt 1).out ++ [pace 1 % 65536] ∧
    pace (playbackAt 1).level ≤ 65535 :=
  ⟨(pacing_delay (playbackAt 1) 0 0 rfl (by decide)).1,
   ((pacing_delay (playbackAt 1) 0 0 rfl (by decide)).2.1 (by decide)).1⟩

/-- Counterexample to C14 as stated: at level 0 the value is 65536, above
65535, and the delay requested from the 16-bit primitive is 0, not that value
and less than the 58743 requested at level 1. -/
theorem pacing_delay_counterexample :
    pace 0 = 65536 ∧ ¬ pace 0 ≤ 65535 ∧
    delaysOf (step (playbackAt 0) (.run 0)).out = [0] ∧
    delaysOf (step (playbackAt 1) (.run 0)).out = [58743] := by
  decide


/-! ## The entropy window -/

theorem mix_eq (seed b : Nat) (hb : b < 256) :
    ((seed <<< 1) ^^^ (b % 256)) % 65536 = mixSpec seed b := by
  unfold mixSpec
  rw [Nat.mod_eq_of_lt hb]
  apply Nat.eq_of_testBit_eq
  intro i
  rw [(by decide : (65536 : Nat) = 2 ^ 16)]
  simp only [Nat.testBit_mod_two_pow, Nat.testBit_xor]
  by_cases hi : i < 16
  · simp [hi]
  · have h1 : b < 2 ^ i :=
      Nat.lt_of_lt_of_le hb (by
        rw [(by decide : (256 : Nat) = 2 ^ 8)]
        exact Nat.pow_le_pow_right (by decide) (by omega))
    simp [hi, Nat.testBit_lt_two_pow h1]

theorem isr_fields (s : State) (b : Nat) (hb : b < 256) :
    (isr b s).pc = s.pc ∧ (isr b s).time = (s.time + 1) % 65536 ∧
    (isr b s).nrot = s.nrot - 1 ∧
    (isr b s).seed = if s.nrot = 0 then s.seed else mixSpec s.seed b := by
  unfold isr
  dsimp only
  by_cases hn : s.nrot = 0
  · simp [hn]
  · simp [hn, mix_eq s.seed b hb]

theorem entropy_ticks (bs : List Nat) (s : State) (hpc : s.pc = .entropy)
    (ht : s.time < 65536) (hb : ∀ b ∈ bs, b < 256) :
    (runs s (bs.map Event.tick)).pc = .entropy ∧
    (runs s (bs.map Event.tick)).time = (s.time + bs.length) % 65536 ∧
    (runs s (bs.map Event.tick)).nrot = s.nrot - min bs.length s.nrot ∧
    (runs s (bs.map Event.tick)).seed = (bs.take s.nrot).foldl mixSpec s.seed := by
  induction bs generalizing s with
  | nil =>
    refine ⟨hpc, ?_, ?_, ?_⟩
    · show s.time = (s.time + 0) % 65536
      omega
    · show s.nrot = s.nrot - min 0 s.nrot
      omega
    · simp [runs]
  | cons b bs ih =>
    have hb1 : b < 256 := hb b (List.mem_cons_self _ _)
    have hbs : ∀ x ∈ bs, x < 256 := fun x hx => hb x (List.mem_cons_of_mem _ hx)
    obtain ⟨f1, f2, f3, f4⟩ := isr_fields s b hb1
    rw [List.map_cons, runs_cons, step_tick_entropy s b hpc]
    obtain ⟨h1, h2, h3, h4⟩ := ih (isr b s) (f1.trans hpc) (by rw [f2]; omega) hbs
    refine ⟨h1, ?_, ?_, ?_⟩
    · rw [h2, f2]
      simp only [List.length_cons]
      omega
    · rw [h3, f3]
      simp only [List.length_cons]
      omega
    · rw [h4, f3, f4]
      by_cases hn : s.nrot = 0
      · simp [hn]
      · obtain ⟨k, hk⟩ : ∃ k, s.nrot = k + 1 := ⟨s.nrot - 1, by omega⟩
        simp [hk]

theorem shl_xor (x y : Nat) : (x ^^^ y) <<< 1 = (x <<< 1) ^^^ (y <<< 1) := by
  apply Nat.eq_of_testBit_eq
  intro i
  simp only [Nat.testBit_shiftLeft, Nat.testBit_xor]
  by_cases h : 1 ≤ i <;> simp [h]

theorem shl_mod (x : Nat) (h : x < 32768) : (x <<< 1) % 65536 = x <<< 1 := by
  rw [Nat.shiftLeft_eq]
  omega

theorem mix_step (k x b : Nat) (hx : x < 2 ^ k) (hk : 8 ≤ k) (hk2 : 2 ^ k ≤ 32768)
    (hb : b < 256) :
    mixSpec x b = (x <<< 1) ^^^ b ∧ (x <<< 1) ^^^ b < 2 ^ (k + 1) := by
  constructor
  · unfold mixSpec
    rw [shl_mod x (by omega)]
  · apply Nat.xor_lt_two_pow
    · rw [Nat.shiftLeft_eq, Nat.pow_succ]
      omega
    · exact Nat.lt_of_lt_of_le hb (by
        rw [(by decide : (256 : Nat) = 2 ^ 8)]
        exact Nat.pow_le_pow_right (by decide) (by omega))

theorem mix8 (a b1 b2 b3 b4 b5 b6 b7 b8 : Nat) (ha : a < 256) (h1 : b1 < 256) (h2 : b2 < 256)
    (h3 : b3 < 256) (h4 : b4 < 256) (h5 : b5 < 256) (h6 : b6 < 256) (h7 : b7 < 256)
    (h8 : b8 < 256) :
    [b1, b2, b3, b4, b5, b6, b7, b8].foldl mixSpec a =
      (a <<< 8) ^^^ (b1 <<< 7) ^^^ (b2 <<< 6) ^^^ (b3 <<< 5) ^^^ (b4 <<< 4) ^^^ (b5 <<< 3) ^^^
        (b6 <<< 2) ^^^ (b7 <<< 1) ^^^ b8 := by
  have ha2 : a < 2 ^ 8 := ha
  obtain ⟨e1, l1⟩ := mix_step 8 a b1 ha2 (by decide) (by decide) h1
  obtain ⟨e2, l2⟩ := mix_step 9 _ b2 l1 (by decide) (by decide) h2
  obtain ⟨e3, l3⟩ := mix_step 10 _ b3 l2 (by decide) (by decide) h3
  obtain ⟨e4, l4⟩ := mix_step 11 _ b4 l3 (by decide) (by decide) h4
  obtain ⟨e5, l5⟩ := mix_step 12 _ b5 l4 (by decide) (by decide) h5
  obtain ⟨e6, l6⟩ := mix_step 13 _ b6 l5 (by decide) (by decide) h6
  obtain ⟨e7, l7⟩ := mix_step 14 _ b7 l6 (by decide) (by decide) h7
  obtain ⟨e8, _⟩ := mix_step 15 _ b8 l7 (by decide) (by decide) h8
  simp only [List.foldl]
  rw [e1, e2, e3, e4, e5, e6, e7, e8]
  simp only [shl_xor, ← Nat.shiftLeft_add]

/-- C16: from the state in which `main` waits for the entropy window
(`nrot = 8`), after the watchdog interrupt has fired `n` times with the timer
bytes `bs`, `time` is the start value plus `n` modulo 65536, `nrot` is
`8 - min n 8`, and the seed has been mixed with the first `min n 8` bytes, each
time by `seed := ((seed << 1) mod 65536) xor b`, which is what the handler
computes.  When the start seed is a byte `a` and at least eight interrupts have
fired, the seed is `(a << 8) xor (b1 << 7) xor ... xor (b7 << 1) xor b8`, and a
further firing leaves seed and `nrot` unchanged.  The boot block leaves the
machine in such a state with the ADC byte as seed. -/
theorem entropy_window (s : State) (bs : List Nat) (hpc : s.pc = .entropy) (hn : s.nrot = 8)
    (ht : s.time < 65536) (hb : ∀ b ∈ bs, b < 256) :
    (runs s (bs.map Event.tick)).time = (s.time + bs.length) % 65536 ∧
    (runs s (bs.map Event.tick)).nrot = 8 - min bs.length 8 ∧
    (runs s (bs.map Event.tick)).seed = (bs.take 8).foldl mixSpec s.seed ∧
    (bs.take 8).length = min bs.length 8 ∧
    (∀ (t : State) (b : Nat), b < 256 → t.nrot ≠ 0 → (isr b t).seed = mixSpec t.seed b) ∧
    (∀ b1 b2 b3 b4 b5 b6 b7 b8 : Nat, ∀ rest : List Nat, s.seed < 256 →
      bs = [b1, b2, b3, b4, b5, b6, b7, b8] ++ rest →
      (runs s (bs.map Event.tick)).seed =
        (s.seed <<< 8) ^^^ (b1 <<< 7) ^^^ (b2 <<< 6) ^^^ (b3 <<< 5) ^^^ (b4 <<< 4) ^^^
          (b5 <<< 3) ^^^ (b6 <<< 2) ^^^ (b7 <<< 1) ^^^ b8) ∧
    (∀ b : Nat, 8 ≤ bs.length →
      (step (runs s (bs.map Event.tick)) (.tick b)).seed = (runs s (bs.map Event.tick)).seed ∧
      (step (runs s (bs.map Event.tick)) (.tick b)).nrot = 0) ∧
    (∀ (e : Eeprom) (a : Nat), (step (init e) (.run a)).pc = .entropy ∧
      (step (init e) (.run a)).nrot = 8 ∧ (step (init e) (.run a)).seed = a % 256 ∧
      (step (init e) (.run a)).time = 0) := by
  obtain ⟨_, h2, h3, h4⟩ := entropy_ticks bs s hpc ht hb
  rw [hn] at h3 h4
  refine ⟨h2, h3, h4, by rw [List.length_take, Nat.min_comm], ?_, ?_, ?_, ?_⟩
  · intro t b hb1 hnz
    rw [(isr_fields t b hb1).2.2.2, if_neg hnz]
  · intro b1 b2 b3 b4 b5 b6 b7 b8 rest ha hbs
    rw [h4, hbs]
    have hm : ∀ x ∈ [b1, b2, b3, b4, b5, b6, b7, b8], x < 256 := by
      intro x hx
      exact hb x (by rw [hbs]; exact List.mem_append_left _ hx)
    have e : List.take 8 ([b1, b2, b3, b4, b5, b6, b7, b8] ++ rest) =
        [b1, b2, b3, b4, b5, b6, b7, b8] := by simp
    rw [e]
    exact mix8 s.seed b1 b2 b3 b4 b5 b6 b7 b8 ha (hm b1 (by simp)) (hm b2 (by simp))
      (hm b3 (by simp)) (hm b4 (by simp)) (hm b5 (by simp)) (hm b6 (by simp)) (hm b7 (by simp))
      (hm b8 (by simp))
  · intro b hlen
    have hz : (runs s (bs.map Event.tick)).nrot = 0 := by rw [h3]; omega
    rcases step_tick _ b hz with h | h <;> rw [h]
    · exact ⟨rfl, hz⟩
    · exact ⟨rfl, hz⟩
  · intro e a
    exact ⟨rfl, rfl, rfl, rfl⟩

/-- Witness of C16: ten interrupts after the ADC conversion returned `0x5a`. -/
theorem entropy_window_witness :
    (runs (afterAdc 0x5a)
      ([3, 200, 17, 99, 254, 8, 61, 120, 7, 7].map Event.tick)).time = (0 + 10) % 65536 ∧
    (runs (afterAdc 0x5a)
      ([3, 200, 17, 99, 254, 8, 61, 120, 7, 7].map Event.tick)).nrot = 8 - min 10 8 ∧
    (runs (afterAdc 0x5a) ([3, 200, 17, 99, 254, 8, 61, 120, 7, 7].map Event.tick)).seed =
      (0x5a <<< 8) ^^^ (3 <<< 7) ^^^ (200 <<< 6) ^^^ (17 <<< 5) ^^^ (99 <<< 4) ^^^
        (254 <<< 3) ^^^ (8 <<< 2) ^^^ (61 <<< 1) ^^^ 120 :=
  ⟨(entropy_window (afterAdc 0x5a) [3, 200, 17, 99, 254, 8, 61, 120, 7, 7] rfl rfl
      (by decide) (by decide)).1,
   (entropy_window (afterAdc 0x5a) [3, 200, 17, 99, 254, 8, 61, 120, 7, 7] rfl rfl
      (by decide) (by decide)).2.1,
   (entropy_window (afterAdc 0x5a) [3, 200, 17, 99, 254, 8, 61, 120, 7, 7] rfl rfl
      (by decide) (by decide)).2.2.2.2.2.1 3 200 17 99 254 8 61 120 [7, 7] (by decide) rfl⟩


/-! ## A wrong press -/

theorem random_play (b p : Nat) (s : State) :
    (simple_random4 (play b p s)).1 = (simple_random4 s).1 := by
  simp [simple_random4, play]

/-- C15: when the recognised press `b` differs from the expected symbol `c`,
the trace is extended by the tone of `b`, three times a delay and the tone of
`c`, a delay, the reverse melody 3, 2, 1, 0, the ascending melody 0, 1, 2, 3
three times exactly when `level > max_level`, and the call of `sleep_now`; the
machine sleeps for ever with the level unchanged and verifies no further
position. -/
theorem mismatch_handling (s : State) (io i b : Nat) (hpc : s.pc = .pressed i b)
    (hne : b ≠ (simple_random4 s).1) :
    (step s (.run io)).out =
      s.out ++ [Out.tone b 45000,
        Out.delay 10000, Out.tone (simple_random4 s).1 20000,
        Out.delay 10000, Out.tone (simple_random4 s).1 20000,
        Out.delay 10000, Out.tone (simple_random4 s).1 20000,
        Out.delay 65535,
        Out.tone 3 25000, Out.tone 2 25000, Out.tone 1 25000, Out.tone 0 25000] ++
      (if s.max_level < s.level then rewardOut else []) ++ [Out.sleep] ∧
    tonesOf (step s (.run io)).out =
      tonesOf s.out ++ [b, (simple_random4 s).1, (simple_random4 s).1, (simple_random4 s).1,
        3, 2, 1, 0] ++
      (if s.max_level < s.level then [0, 1, 2, 3, 0, 1, 2, 3, 0, 1, 2, 3] else []) ∧
    (step s (.run io)).pc = .asleep ∧
    (step s (.run io)).level = s.level ∧
    (∀ es : List Event, runs (step s (.run io)) es = step s (.run io)) := by
  have hne2 : b ≠ (simple_random4 (play b 45000 s)).1 := by
    rw [random_play]
    exact hne
  have hstep : step s (.run io) = game_over (delay_loop_2 65535
      (play (simple_random4 (play b 45000 s)).1 20000 (delay_loop_2 10000
      (play (simple_random4 (play b 45000 s)).1 20000 (delay_loop_2 10000
      (play (simple_random4 (play b 45000 s)).1 20000 (delay_loop_2 10000
        (simple_random4 (play b 45000 s)).2))))))) := by
    rw [step_run, main_step_pressed s io i b hpc, if_pos hne2]
  have hout : (step s (.run io)).out =
      s.out ++ [Out.tone b 45000,
        Out.delay 10000, Out.tone (simple_random4 s).1 20000,
        Out.delay 10000, Out.tone (simple_random4 s).1 20000,
        Out.delay 10000, Out.tone (simple_random4 s).1 20000,
        Out.delay 65535,
        Out.tone 3 25000, Out.tone 2 25000, Out.tone 1 25000, Out.tone 0 25000] ++
      (if s.max_level < s.level then rewardOut else []) ++ [Out.sleep] := by
    rw [hstep, game_over_out_eq]
    simp only [out_play, out_delay, out_random, random_play, rewardOut]
    have hl : (delay_loop_2 65535
      (play (simple_random4 s).1 20000 (delay_loop_2 10000
      (play (simple_random4 s).1 20000 (delay_loop_2 10000
      (play (simple_random4 s).1 20000 (delay_loop_2 10000
        (simple_random4 (play b 45000 s)).2))))))).level = s.level := by
      simp [delay_loop_2, play, simple_random4]
    have hm : (delay_loop_2 65535
      (play (simple_random4 s).1 20000 (delay_loop_2 10000
      (play (simple_random4 s).1 20000 (delay_loop_2 10000
      (play (simple_random4 s).1 20000 (delay_loop_2 10000
        (simple_random4 (play b 45000 s)).2))))))).max_level = s.max_level := by
      simp [delay_loop_2, play, simple_random4]
    rw [hl, hm]
    simp
  have hpc2 : (step s (.run io)).pc = .asleep := by
    rw [hstep]
    exact game_over_pc _
  refine ⟨hout, ?_, hpc2, ?_, fun es => runs_asleep _ es hpc2⟩
  · rw [hout]
    by_cases h : s.max_level < s.level
    · simp [h, tonesOf_append, tonesOf, rewardOut]
    · simp [h, tonesOf_append, tonesOf]
  · rw [hstep, (game_over_frame _).2.2.1]
    simp [delay_loop_2, play, simple_random4]

/-- Witness of C15: button 0 pressed while the expected symbol is 3. -/
theorem mismatch_handling_witness :
    (step (step (runs (init Eeprom.erased) bootAndPlay) (.run 0x15)) (.run 0)).pc = .asleep :=
  (mismatch_handling (step (runs (init Eeprom.erased) bootAndPlay) (.run 0x15)) 0 0 0
    (by decide) (by decide)).2.2.1


/-! ## Writes of the tick counter by the main flow -/

theorem time_run (s : State) (io : Nat) :
    (step s (.run io)).time = s.time ∨ (step s (.run io)).time = 0 := by
  rw [step_run]
  cases hp : s.pc with
  | boot => rw [main_step_boot s io hp]; exact Or.inl rfl
  | entropy => rw [main_step_entropy s io hp]; split_ifs <;> exact Or.inl rfl
  | modeSelect =>
    rw [main_step_modeSelect s io hp, mode_select_eq]
    split_ifs <;> exact Or.inl rfl
  | roundStart => rw [main_step_roundStart s io hp]; exact Or.inl rfl
  | playback i =>
    rw [main_step_playback s io i hp]
    split_ifs
    · left
      simp [play, simple_random4, delay_loop_2]
    · exact Or.inr rfl
  | verify i => rw [main_step_verify s io i hp]; split_ifs <;> exact Or.inl rfl
  | poll i b =>
    rw [main_step_poll s io i b hp]
    split_ifs <;> first | exact Or.inl rfl | exact Or.inr rfl
  | idle i => rw [main_step_idle s io i hp]; split_ifs <;> exact Or.inl rfl
  | pressed i b =>
    rw [main_step_pressed s io i b hp]
    split_ifs
    · left
      rw [(game_over_frame _).2.2.2.2.1]
      simp [play, simple_random4, delay_loop_2]
    · exact Or.inr rfl
  | levelEnd =>
    rw [main_step_levelEnd s io hp]
    split_ifs
    · left
      simp [play, level_up, delay_loop_2]
    · left
      rw [(game_over_frame _).2.2.2.2.1]
      simp [play, level_up, delay_loop_2]
  | asleep => rw [main_step_asleep s io hp]; exact Or.inl rfl

theorem time_kept (s : State) (io : Nat)
    (h1 : ∀ i : Nat, s.pc = .playback i → i ≤ s.level)
    (h2 : ∀ i b : Nat, s.pc = .pressed i b → b ≠ (simple_random4 s).1)
    (h3 : ∀ i b : Nat, s.pc = .poll i b → b < 4 → active io b = true → recognised s b = true) :
    (step s (.run io)).time = s.time := by
  rw [step_run]
  cases hp : s.pc with
  | boot => rw [main_step_boot s io hp]
  | entropy => rw [main_step_entropy s io hp]; split_ifs <;> rfl
  | modeSelect =>
    rw [main_step_modeSelect s io hp, mode_select_eq]
    split_ifs <;> rfl
  | roundStart => rw [main_step_roundStart s io hp]
  | playback i =>
    rw [main_step_playback s io i hp, if_pos (h1 i hp)]
    simp [play, simple_random4, delay_loop_2]
  | verify i => rw [main_step_verify s io i hp]; split_ifs <;> rfl
  | poll i b =>
    rw [main_step_poll s io i b hp]
    by_cases c1 : b < 4
    · by_cases c2 : active io b = true
      · rw [if_pos c1, if_pos c2, if_pos (h3 i b hp c1 c2)]
      · rw [if_pos c1, if_neg c2]
    · rw [if_neg c1]
  | idle i => rw [main_step_idle s io i hp]; split_ifs <;> rfl
  | pressed i b =>
    have hne : b ≠ (simple_random4 (play b 45000 s)).1 := by
      rw [random_play]
      exact h2 i b hp
    rw [main_step_pressed s io i b hp, if_pos hne, (game_over_frame _).2.2.2.2.1]
    simp [play, simple_random4, delay_loop_2]
  | levelEnd =>
    rw [main_step_levelEnd s io hp]
    split_ifs
    · simp [play, level_up, delay_loop_2]
    · rw [(game_over_frame _).2.2.2.2.1]
      simp [play, level_up, delay_loop_2]
  | asleep => rw [main_step_asleep s io hp]

/-- C12 (amended): every write of `time` by the main flow is a reset to zero,
and the main flow resets `time` in three places only: at the start of the
verification pass, after a recognised press (one equal to the expected symbol),
and whenever a polled button is active but not recognised as a press.  Every
other block leaves `time` as it is; so do the poll of a button that is not
active or that is recognised, and the branch of a wrong press. -/
theorem time_write_discipline (s : State) (io : Nat) :
    ((step s (.run io)).time = s.time ∨ (step s (.run io)).time = 0) ∧
    (∀ i : Nat, s.pc = .playback i → s.level < i → (step s (.run io)).time = 0) ∧
    (∀ i b : Nat, s.pc = .pressed i b → b = (simple_random4 s).1 →
      (step s (.run io)).time = 0) ∧
    (∀ i b : Nat, s.pc = .poll i b → b < 4 → active io b = true → recognised s b = false →
      (step s (.run io)).time = 0) ∧
    (∀ i b : Nat, s.pc = .poll i b → (active io b = false ∨ recognised s b = true) →
      (step s (.run io)).time = s.time) ∧
    ((step s (.run io)).time ≠ s.time →
      (∃ i : Nat, s.pc = .playback i ∧ s.level < i) ∨
      (∃ i b : Nat, s.pc = .pressed i b ∧ b = (simple_random4 s).1) ∨
      (∃ i b : Nat, s.pc = .poll i b ∧ b < 4 ∧ active io b = true ∧
        recognised s b = false)) := by
  refine ⟨time_run s io, ?_, ?_, ?_, ?_, ?_⟩
  · intro i hp hlt
    have h1 : ¬ i ≤ s.level := by omega
    rw [step_run, main_step_playback s io i hp, if_neg h1]
  · intro i b hp hb
    have h1 : ¬ b ≠ (simple_random4 (play b 45000 s)).1 := by
      rw [random_play]
      exact fun h => h hb
    rw [step_run, main_step_pressed s io i b hp, if_neg h1]
  · intro i b hp hb ha hr
    have h1 : ¬ recognised s b = true := by rw [hr]; decide
    rw [step_run, main_step_poll s io i b hp, if_pos hb, if_pos ha, if_neg h1]
  · intro i b hp h
    rw [step_run, main_step_poll s io i b hp]
    rcases h with h | h
    · have h1 : ¬ active io b = true := by rw [h]; decide
      split_ifs <;> rfl
    · split_ifs <;> rfl
  · intro hne
    by_contra hc
    simp only [not_or, not_exists, not_and] at hc
    obtain ⟨c1, c2, c3⟩ := hc
    apply hne
    apply time_kept s io
    · intro i hp
      have := c1 i hp
      omega
    · intro i b hp heq
      exact c2 i b hp heq
    · intro i b hp hb ha
      have := c3 i b hp hb ha
      cases hr : recognised s b
      · exact absurd hr this
      · rfl

/-- Witness of C12: button 3 is still held one tick after it was accepted. -/
theorem time_write_discipline_witness :
    (step (runs (init Eeprom.erased) (bootQuiet ++ holdButton)) (.run 0x0d)).time = 0 :=
  (time_write_discipline (runs (init Eeprom.erased) (bootQuiet ++ holdButton)) 0x0d).2.2.2.1 1 3
    (by decide) (by decide) (by decide) (by decide)

/-- Counterexample to C12 as stated, reached from reset: button 3 is active,
equals `last_button` and `time` is 1, so the press is not recognised; the main
flow nevertheless writes `time`, which goes from 1 to 0. -/
theorem time_write_counterexample :
    (runs (init Eeprom.erased) (bootQuiet ++ holdButton)).pc = .poll 1 3 ∧
    active 0x0d 3 = true ∧
    (runs (init Eeprom.erased) (bootQuiet ++ holdButton)).last_button = 3 ∧
    (runs (init Eeprom.erased) (bootQuiet ++ holdButton)).time = 1 ∧
    recognised (runs (init Eeprom.erased) (bootQuiet ++ holdButton)) 3 = false ∧
    (step (runs (init Eeprom.erased) (bootQuiet ++ holdButton)) (.run 0x0d)).pc = .idle 1 ∧
    (step (runs (init Eeprom.erased) (bootQuiet ++ holdButton)) (.run 0x0d)).time = 0 := by
  decide

/-! ## Demo mode -/

theorem demo_step (e : Eeprom) (seed : Nat) (s : State) (ev : Event) (h : DemoInv e seed s) :
    DemoInv e seed (step s ev) := by
  obtain ⟨hl, he, hn, hs, hpc⟩ := h
  cases ev with
  | tick b =>
    rcases step_tick s b hn with h1 | h1 <;> rw [h1]
    · exact ⟨hl, he, hn, hs, hpc⟩
    · exact ⟨hl, he, hn, hs, hpc⟩
  | run io =>
    rw [step_run]
    rcases hpc with hp | ⟨i, hi, hp⟩
    · rw [main_step_roundStart s io hp]
      exact ⟨hl, he, hn, hs, Or.inr ⟨0, by omega, rfl⟩⟩
    · have hle : i ≤ s.level := by omega
      rw [main_step_playback s io i hp, if_pos hle]
      unfold DemoInv
      simp only [play, simple_random4, delay_loop_2]
      exact ⟨hl, he, hn, hs, Or.inr ⟨(i + 1) % 256, by omega, rfl⟩⟩

theorem demo_runs (e : Eeprom) (seed : Nat) (es : List Event) (s : State)
    (h : DemoInv e seed s) : DemoInv e seed (runs s es) := by
  induction es generalizing s with
  | nil => exact h
  | cons ev es ih => rw [runs_cons]; exact ih _ (demo_step e seed s ev h)

theorem playbackAt_runs_demo (seed : Nat) (o : List Out) (es : List Event) (n k : Nat)
    (s : State) (h : PlaybackAt 255 seed o n s) (hc : runCount es = k) :
    PlaybackAt 255 seed o (n + k) (runs s es) := by
  induction es generalizing s n k with
  | nil =>
    simp only [runCount] at hc
    subst hc
    exact h
  | cons e es ih =>
    cases e with
    | tick t =>
      rw [runs_cons]
      exact ih n k _ (playbackAt_tick 255 seed o n s t h) (by simpa [runCount] using hc)
    | run io =>
      simp only [runCount] at hc
      rw [runs_cons]
      have h1 := playbackAt_run 255 seed o n s io h (by omega)
      have h2 := ih (n + 1) (k - 1) _ h1 (by omega)
      have h3 : n + 1 + (k - 1) = n + k := by omega
      rw [h3] at h2
      exact h2

theorem demo_prefix (seed : Nat) (s : State) (es : List Event) (n : Nat)
    (hpc : s.pc = .roundStart) (hn : s.nrot = 0) (hs : s.seed = seed) (hl : s.level = 255)
    (hc : runCount es = n + 1) : PlaybackAt 255 seed s.out n (runs s es) := by
  induction es generalizing s with
  | nil => simp [runCount] at hc
  | cons e es ih =>
    cases e with
    | tick t =>
      rw [runs_cons]
      rcases step_tick s t hn with h1 | h1 <;> rw [h1]
      · exact ih s hpc hn hs hl (by simpa [runCount] using hc)
      · exact ih { s with time := (s.time + 1) % 65536 } hpc hn hs hl
          (by simpa [runCount] using hc)
    | run io =>
      rw [runs_cons]
      have h1 := playbackAt_start 255 seed s.out s io hpc hn hs hl rfl
      have h2 := playbackAt_runs_demo seed s.out es 0 n _ h1
        (by simp only [runCount] at hc; omega)
      rw [Nat.zero_add] at h2
      exact h2

theorem at_modeSelect_nrot (e : Eeprom) (es : List Event)
    (h : (runs (init e) es).pc = .modeSelect) : (runs (init e) es).nrot = 0 := by
  rcases reach_init e es with hb | ⟨seed, hg⟩
  · obtain ⟨_, _, _, h1 | h1 | ⟨_, h1⟩⟩ := hb
    · rw [h] at h1; cases h1
    · rw [h] at h1; cases h1
    · exact h1
  · exact hg.1

/-- C11: after a boot with the demo pattern (`PINB & 0x1d == 0x0d`), whatever
events follow, the machine stands at the head of the game loop or in the
playback loop with an index below 256: it never enters the verification pass,
`game_over` or sleep, `sleep_now` is never called, the store keeps its content
and the level stays 255.  The playback goes on for ever: after `n + 1` further
blocks exactly `n` symbols, the first `n` generated from the seed, have been
played. -/
theorem demo_mode (e : Eeprom) (es : List Event) (pinb : Nat) (es2 : List Event)
    (hpc : (runs (init e) es).pc = .modeSelect) (hp : pinb &&& 0x1d = 0x0d) :
    ((runs (step (runs (init e) es) (.run pinb)) es2).pc = .roundStart ∨
      ∃ i, i < 256 ∧ (runs (step (runs (init e) es) (.run pinb)) es2).pc = .playback i) ∧
    (runs (step (runs (init e) es) (.run pinb)) es2).level = 255 ∧
    (runs (step (runs (init e) es) (.run pinb)) es2).eeprom = e ∧
    (runs (step (runs (init e) es) (.run pinb)) es2).seed = (runs (init e) es).seed ∧
    (runs (step (runs (init e) es) (.run pinb)) es2).out.count Out.sleep = 0 ∧
    (∀ n : Nat, runCount es2 = n + 1 →
      (runs (step (runs (init e) es) (.run pinb)) es2).pc = .playback (n % 256) ∧
      (runs (step (runs (init e) es) (.run pinb)) es2).out =
        playbackOut 255 (runs (init e) es).seed n ∧
      tonesOf (runs (step (runs (init e) es) (.run pinb)) es2).out =
        symbols (runs (init e) es).seed n) := by
  obtain ⟨he, hl, ho⟩ := at_modeSelect e es hpc
  have hn := at_modeSelect_nrot e es hpc
  have hstep : step (runs (init e) es) (.run pinb) =
      { runs (init e) es with max_level := load_best (runs (init e) es).eeprom, level := 255,
                              pc := .roundStart } := by
    rw [step_run, main_step_modeSelect _ pinb hpc, mode_select_eq]
    simp [hp]
  have hd : DemoInv e (runs (init e) es).seed (step (runs (init e) es) (.run pinb)) := by
    rw [hstep]
    exact ⟨rfl, he, hn, rfl, Or.inl rfl⟩
  have hd2 := demo_runs e _ es2 _ hd
  obtain ⟨h1, h2, _, h4, h5⟩ := hd2
  have hso : SleepOnce (runs (step (runs (init e) es) (.run pinb)) es2) := by
    rw [← runs_cons, ← runs_append]
    exact sleep_once_runs (init e) _ (sleep_once_init e)
  refine ⟨h5, h1, h2, h4, ?_, ?_⟩
  · unfold SleepOnce at hso
    rw [hso]
    rcases h5 with h | ⟨i, _, h⟩ <;> simp [h]
  · intro n hc
    have hpre := demo_prefix (runs (init e) es).seed (step (runs (init e) es) (.run pinb)) es2 n
      (by rw [hstep]) (by rw [hstep]; exact hn) (by rw [hstep]) (by rw [hstep]) hc
    obtain ⟨_, _, _, p4, _, p6⟩ := hpre
    have ho2 : (step (runs (init e) es) (.run pinb)).out = [] := by rw [hstep]; exact ho
    rw [ho2, List.nil_append] at p6
    refine ⟨p4, p6, ?_⟩
    rw [p6, tonesOf_playbackOut]

/-- Witness of C11: a demo boot followed by three blocks and a tick. -/
theorem demo_mode_witness :
    (runs (step (runs (init Eeprom.erased) bootEvents) (.run 0x0d))
      [.run 0, .run 0, .tick 5, .run 0]).level = 255 ∧
    (runs (step (runs (init Eeprom.erased) bootEvents) (.run 0x0d))
      [.run 0, .run 0, .tick 5, .run 0]).pc = .playback (2 % 256) :=
  ⟨(demo_mode Eeprom.erased bootEvents 0x0d [.run 0, .run 0, .tick 5, .run 0] (by decide)
      (by decide)).2.1,
   ((demo_mode Eeprom.erased bootEvents 0x0d [.run 0, .run 0, .tick 5, .run 0] (by decide)
      (by decide)).2.2.2.2.2 2 rfl).1⟩


/-! ## Bound of the level over all sessions -/

theorem load_best_save (e : Eeprom) (level seed : Nat) (h : level < 256) :
    load_best (save_record e level seed) = level := by
  simp [load_best, save_record, eeprom_write_word, eeprom_write_byte, eeprom_read_byte,
    Nat.mod_eq_of_lt (not8_lt level), not8_not8 level h]

theorem game_over_best (s : State) (hl : s.level ≤ 254) (hb : load_best s.eeprom ≤ 254) :
    load_best (game_over s).eeprom ≤ 254 := by
  rw [game_over_eeprom]
  split_ifs
  · rw [load_best_save _ _ _ (by omega)]
    exact hl
  · exact hb

theorem levelOk_step_tick_aux (s : State) (b : Nat) :
    (step s (.tick b)).level = s.level ∧ (step s (.tick b)).eeprom = s.eeprom := by
  cases hp : s.pc <;> simp only [step, hp, isr] <;> (try split_ifs) <;>
    first | exact ⟨rfl, rfl⟩ | simp

theorem levelOk_step (s : State) (e : Event) (h : LevelOk s) (hm : s.pc ≠ .modeSelect) :
    LevelOk (step s e) := by
  obtain ⟨hl, hb⟩ := h
  cases e with
  | tick b =>
    cases hp : s.pc <;> simp only [step, hp, isr] <;> (try split_ifs) <;> exact ⟨hl, hb⟩
  | run io =>
    rw [step_run]
    cases hp : s.pc with
    | boot => rw [main_step_boot s io hp]; exact ⟨hl, hb⟩
    | entropy => rw [main_step_entropy s io hp]; split_ifs <;> exact ⟨hl, hb⟩
    | modeSelect => exact absurd hp hm
    | roundStart => rw [main_step_roundStart s io hp]; exact ⟨hl, hb⟩
    | playback i =>
      rw [main_step_playback s io i hp]
      split_ifs
      · unfold LevelOk
        simp only [play, simple_random4, delay_loop_2]
        exact ⟨hl, hb⟩
      · exact ⟨hl, hb⟩
    | verify i => rw [main_step_verify s io i hp]; split_ifs <;> exact ⟨hl, hb⟩
    | poll i b => rw [main_step_poll s io i b hp]; split_ifs <;> exact ⟨hl, hb⟩
    | idle i => rw [main_step_idle s io i hp]; split_ifs <;> exact ⟨hl, hb⟩
    | pressed i b =>
      rw [main_step_pressed s io i b hp]
      split_ifs
      · refine ⟨?_, ?_⟩
        · rw [(game_over_frame _).2.2.1]
          simp only [play, simple_random4, delay_loop_2]
          exact hl
        · apply game_over_best
          · simp only [play, simple_random4, delay_loop_2]
            exact hl
          · simp only [play, simple_random4, delay_loop_2]
            exact hb
      · unfold LevelOk
        simp only [play, simple_random4]
        exact ⟨hl, hb⟩
    | levelEnd =>
      rw [main_step_levelEnd s io hp]
      split_ifs with h1
      · unfold LevelOk
        simp only [play, level_up, delay_loop_2]
        exact ⟨by omega, hb⟩
      · refine ⟨?_, ?_⟩
        · rw [(game_over_frame _).2.2.1]
          simp only [play, level_up, delay_loop_2]
          exact hl
        · apply game_over_best
          · simp only [play, level_up, delay_loop_2]
            exact hl
          · simp only [play, level_up, delay_loop_2]
            exact hb
    | asleep => rw [main_step_asleep s io hp]; exact ⟨hl, hb⟩

theorem levelOk_mode (s : State) (pinb : Nat) (h : LevelOk s) (hpc : s.pc = .modeSelect)
    (hp : pinb &&& 0x1d ≠ 0x0d) : LevelOk (step s (.run pinb)) := by
  obtain ⟨hl, hb⟩ := h
  rw [step_run, main_step_modeSelect s pinb hpc, mode_select_eq]
  split_ifs with h1 h2 h3
  · exact ⟨hb, hb⟩
  · exact ⟨hl, hb⟩
  · refine ⟨hl, ?_⟩
    show load_best (eeprom_write_byte s.eeprom 0 255) ≤ 254
    rw [load_best_reset]
    omega
  · exact ⟨hl, hb⟩

theorem storeOk_step (s : State) (e : Event) (h : StoreOk s) : StoreOk (step s e) := by
  obtain ⟨hb, hl | ⟨hl, hpc⟩⟩ := h
  · by_cases hm : s.pc = .modeSelect
    · cases e with
      | tick b =>
        have h1 := levelOk_step_tick_aux s b
        exact ⟨by rw [h1.2]; exact hb, Or.inl (by rw [h1.1]; exact hl)⟩
      | run io =>
        rw [step_run, main_step_modeSelect s io hm, mode_select_eq]
        split_ifs
        · exact ⟨hb, Or.inl hb⟩
        · exact ⟨hb, Or.inl hl⟩
        · exact ⟨hb, Or.inr ⟨rfl, Or.inl rfl⟩⟩
        · refine ⟨?_, Or.inl hl⟩
          show load_best (eeprom_write_byte s.eeprom 0 255) ≤ 254
          rw [load_best_reset]
          omega
        · exact ⟨hb, Or.inl hl⟩
    · have h1 := levelOk_step s e ⟨hl, hb⟩ hm
      exact ⟨h1.2, Or.inl h1.1⟩
  · cases e with
    | tick b =>
      have h1 := levelOk_step_tick_aux s b
      refine ⟨by rw [h1.2]; exact hb, Or.inr ⟨by rw [h1.1]; exact hl, ?_⟩⟩
      rw [(step_tick_pc_out s b).1]
      exact hpc
    | run io =>
      rw [step_run]
      rcases hpc with hp | ⟨i, hi, hp⟩
      · rw [main_step_roundStart s io hp]
        exact ⟨hb, Or.inr ⟨hl, Or.inr ⟨0, by omega, rfl⟩⟩⟩
      · have hle : i ≤ s.level := by omega
        rw [main_step_playback s io i hp, if_pos hle]
        unfold StoreOk
        simp only [play, simple_random4, delay_loop_2]
        exact ⟨hb, Or.inr ⟨hl, Or.inr ⟨(i + 1) % 256, by omega, rfl⟩⟩⟩

theorem storeOk_runs (s : State) (es : List Event) (h : StoreOk s) : StoreOk (runs s es) := by
  induction es generalizing s with
  | nil => exact h
  | cons e es ih => rw [runs_cons]; exact ih _ (storeOk_step s e h)

theorem storeOk_init (e : Eeprom) (h : load_best e ≤ 254) : StoreOk (init e) :=
  ⟨h, Or.inl (Nat.zero_le _)⟩

theorem sessions_ok (ss : List (List Event)) (e : Eeprom) (h : load_best e ≤ 254) :
    load_best (sessions e ss) ≤ 254 := by
  induction ss generalizing e with
  | nil => exact h
  | cons es ss ih => exact ih _ (storeOk_runs (init e) es (storeOk_init e h)).1

theorem game_not_mode (seed : Nat) (s : State) (h : Game seed s) : s.pc ≠ .modeSelect := by
  intro hp
  obtain ⟨_, _, _, hpc⟩ := h
  simp [hp] at hpc

theorem game_level_runs (seed : Nat) (es : List Event) (s : State) (hg : Game seed s)
    (hl : LevelOk s) : Game seed (runs s es) ∧ LevelOk (runs s es) := by
  induction es generalizing s with
  | nil => exact ⟨hg, hl⟩
  | cons e es ih =>
    rw [runs_cons]
    exact ih _ (game_step seed s e hg) (levelOk_step s e hl (game_not_mode seed s hg))

theorem real_game (e : Eeprom) (es : List Event) (pinb : Nat) (es2 : List Event)
    (he : load_best e ≤ 254) (hpc : (runs (init e) es).pc = .modeSelect)
    (hp : pinb &&& 0x1d ≠ 0x0d) :
    (∃ seed, Game seed (runs (step (runs (init e) es) (.run pinb)) es2)) ∧
    LevelOk (runs (step (runs (init e) es) (.run pinb)) es2) := by
  obtain ⟨h1, h2, _⟩ := at_modeSelect e es hpc
  have hl0 : LevelOk (runs (init e) es) := ⟨by omega, by rw [h1]; exact he⟩
  have hl1 := levelOk_mode _ pinb hl0 hpc hp
  have hg : ∃ seed, Game seed (step (runs (init e) es) (.run pinb)) := by
    rcases booting_step e (runs (init e) es) (.run pinb)
      ⟨h1, h2, (at_modeSelect e es hpc).2.2, Or.inr (Or.inr ⟨hpc, at_modeSelect_nrot e es hpc⟩)⟩
      with hb | hg
    · obtain ⟨_, _, _, hq⟩ := hb
      have hr : (step (runs (init e) es) (.run pinb)).pc = .roundStart := by
        rw [step_run, main_step_modeSelect _ pinb hpc]
      rw [hr] at hq
      rcases hq with hq | hq | ⟨hq, _⟩ <;> cases hq
    · exact hg
  obtain ⟨seed, hg⟩ := hg
  obtain ⟨r1, r2⟩ := game_level_runs seed es2 _ hg hl1
  exact ⟨⟨seed, r1⟩, r2⟩

theorem demo_boot (e : Eeprom) (es : List Event) (pinb : Nat)
    (hpc : (runs (init e) es).pc = .modeSelect) (hp : pinb &&& 0x1d = 0x0d) :
    DemoInv e (runs (init e) es).seed (step (runs (init e) es) (.run pinb)) := by
  obtain ⟨he, _, _⟩ := at_modeSelect e es hpc
  have hn := at_modeSelect_nrot e es hpc
  have hstep : step (runs (init e) es) (.run pinb) =
      { runs (init e) es with max_level := load_best (runs (init e) es).eeprom, level := 255,
                              pc := .roundStart } := by
    rw [step_run, main_step_modeSelect _ pinb hpc, mode_select_eq]
    simp [hp]
  rw [hstep]
  exact ⟨rfl, he, hn, rfl, Or.inl rfl⟩

/-- C19 (amended): on a device whose store was erased and has since gone
through any sequence of boot sessions, the stored best is at most 254, and in a
further session the stored best stays at most 254 and level 255 occurs only at
the head of the game loop and in the playback loop; a demo session keeps the
store and level 255.  In a session booted with any reading but the demo
pattern, the level is at most 254 in every state `t` after mode selection: from
the head of the game loop the playback loop ends after exactly `level + 1`
iterations; the verification loop runs at most `level + 1` iterations, its
index grows by one with every correct press and it is left for the level end
exactly at index `level + 1`, while a wrong press or the idle timeout ends it
earlier in sleep; and a successful recall at level 254 ends in `game_over` with
the level still 254. -/
theorem level_bound (ss : List (List Event)) (es : List Event) (pinb : Nat)
    (es2 : List Event) (e : Eeprom) (t : State) (io : Nat)
    (he : e = sessions Eeprom.erased ss)
    (hpc : (runs (init e) es).pc = .modeSelect) (hp : pinb &&& 0x1d ≠ 0x0d)
    (ht : t = runs (step (runs (init e) es) (.run pinb)) es2) :
    load_best e ≤ 254 ∧
    (∀ es0 : List Event, load_best (runs (init e) es0).eeprom ≤ 254 ∧
      ((runs (init e) es0).level ≤ 254 ∨
        ((runs (init e) es0).level = 255 ∧
          ((runs (init e) es0).pc = .roundStart ∨
            ∃ i, i < 256 ∧ (runs (init e) es0).pc = .playback i)))) ∧
    (∀ (es0 : List Event) (pinb0 : Nat) (es1 : List Event),
      (runs (init e) es0).pc = .modeSelect → pinb0 &&& 0x1d = 0x0d →
      (runs (step (runs (init e) es0) (.run pinb0)) es1).level = 255 ∧
      (runs (step (runs (init e) es0) (.run pinb0)) es1).eeprom = e) ∧
    t.level ≤ 254 ∧ load_best t.eeprom ≤ 254 ∧
    (t.pc = .roundStart → ∀ es3 : List Event, runCount es3 = t.level + 3 →
      (runs t es3).pc = .verify 0 ∧
      (runs t es3).out = t.out ++ playbackOut t.level t.seed (t.level + 1) ∧
      (tonesOf (playbackOut t.level t.seed (t.level + 1))).length = t.level + 1) ∧
    (∀ i : Nat, t.pc = .verify i →
      i ≤ t.level + 1 ∧ (i ≤ t.level → (step t (.run io)).pc = .poll i 0) ∧
      (i = t.level + 1 → (step t (.run io)).pc = .levelEnd)) ∧
    (∀ i b : Nat, (t.pc = .poll i b ∨ t.pc = .idle i ∨ t.pc = .pressed i b) → i ≤ t.level) ∧
    (t.pc = .levelEnd → t.level = 254 →
      step t (.run io) = game_over (level_up (delay_loop_2 65535 t)) ∧
      (step t (.run io)).pc = .asleep ∧ (step t (.run io)).level = 254) ∧
    (∀ i b : Nat, t.pc = .pressed i b → b = (simple_random4 t).1 →
      (step t (.run io)).pc = .verify (i + 1)) ∧
    (∀ i b : Nat, t.pc = .pressed i b → b ≠ (simple_random4 t).1 →
      (step t (.run io)).pc = .asleep) ∧
    (∀ i : Nat, t.pc = .idle i → 4000 < t.time → (step t (.run io)).pc = .asleep) := by
  have hstore : load_best e ≤ 254 := by
    rw [he]
    exact sessions_ok ss Eeprom.erased (by decide)
  obtain ⟨⟨seed, hg⟩, hlev⟩ := real_game e es pinb es2 hstore hpc hp
  rw [← ht] at hg hlev
  refine ⟨hstore, ?_, ?_, hlev.1, hlev.2, ?_, ?_, ?_, ?_, ?_, ?_, ?_⟩
  · intro es0
    exact storeOk_runs (init e) es0 (storeOk_init e hstore)
  · intro es0 pinb0 es1 h0 hp0
    have hd := demo_runs e _ es1 _ (demo_boot e es0 pinb0 h0 hp0)
    exact ⟨hd.1, hd.2.1⟩
  · intro hr es3 hc
    obtain ⟨hround, hv⟩ := playback_pass t.level t.seed t es3 ⟨hr, hg.1, rfl, rfl⟩ hlev.1 hc
    obtain ⟨_, _, _, hm⟩ := hround
    simp only [hv, AwaitAt] at hm
    refine ⟨hv, ?_, by rw [tonesOf_playbackOut, symbols_length]⟩
    rw [hm.2.2]
    simp [pressOut, symbols]
  · intro i hv
    obtain ⟨_, _, _, hq⟩ := hg
    simp only [hv] at hq
    refine ⟨hq.1, ?_, ?_⟩
    · intro hi
      rw [step_run, main_step_verify t io i hv, if_pos hi]
    · intro hi
      have h2 : ¬ i ≤ t.level := by omega
      rw [step_run, main_step_verify t io i hv, if_neg h2]
  · intro i b hq
    obtain ⟨_, _, _, hm⟩ := hg
    rcases hq with hq | hq | hq
    · simp only [hq, AwaitInv] at hm
      exact hm.1
    · simp only [hq, AwaitInv] at hm
      exact hm.1
    · simp only [hq, AwaitInv] at hm
      exact hm.1
  · intro hq h254
    have h1 : ¬ t.level < 254 := by omega
    have hs : step t (.run io) = game_over (level_up (delay_loop_2 65535 t)) := by
      rw [step_run, main_step_levelEnd t io hq, if_neg h1]
    refine ⟨hs, by rw [hs]; exact game_over_pc _, ?_⟩
    rw [hs, (game_over_frame _).2.2.1]
    exact h254
  · intro i b hq hb
    obtain ⟨_, _, _, hm⟩ := hg
    simp only [hq, AwaitInv] at hm
    have h1 : ¬ b ≠ (simple_random4 (play b 45000 t)).1 := by
      rw [random_play]
      exact fun h => h hb
    have hmod : (i + 1) % 256 = i + 1 := by
      have := hlev.1
      omega
    rw [step_run, main_step_pressed t io i b hq, if_neg h1]
    show PC.verify ((i + 1) % 256) = PC.verify (i + 1)
    rw [hmod]
  · intro i b hq hb
    have h1 : b ≠ (simple_random4 (play b 45000 t)).1 := by
      rw [random_play]
      exact hb
    rw [step_run, main_step_pressed t io i b hq, if_pos h1]
    exact game_over_pc _
  · intro i hq htime
    rw [step_run, main_step_idle t io i hq, if_pos htime]
    rfl

/-- Counterexample to C19 as stated, reached from reset on an erased store in
a game booted without a held button: at level 1 the first press is wrong, so
the verification loop is left in its first iteration, in sleep, and does not
run `level + 1 = 2` iterations. -/
theorem level_bound_counterexample :
    (runs (init Eeprom.erased) wrongPress).pc = .pressed 0 0 ∧
    (runs (init Eeprom.erased) wrongPress).level = 1 ∧
    (simple_random4 (runs (init Eeprom.erased) wrongPress)).1 = 3 ∧
    (step (runs (init Eeprom.erased) wrongPress) (.run 0)).pc = .asleep ∧
    (step (runs (init Eeprom.erased) wrongPress) (.run 0)).level = 1 ∧
    (runs (step (runs (init Eeprom.erased) wrongPress) (.run 0))
      [.run 0x0d, .tick 0, .run 0x0d, .run 0]).pc = .asleep := by
  decide

/-- Witness of C19: after a lost game on an erased store, a boot with the
resume pattern starts a game whose level is at most 254. -/
theorem level_bound_witness :
    load_best (sessions Eeprom.erased [lostGame 0x1d]) ≤ 254 ∧
    (runs (step (runs (init (sessions Eeprom.erased [lostGame 0x1d])) bootEvents) (.run 0x19))
      [.run 0]).level ≤ 254 :=
  ⟨(level_bound [lostGame 0x1d] bootEvents 0x19 [.run 0]
      (sessions Eeprom.erased [lostGame 0x1d])
      (runs (step (runs (init (sessions Eeprom.erased [lostGame 0x1d])) bootEvents) (.run 0x19))
        [.run 0]) 0 rfl (by decide) (by decide) rfl).1,
   (level_bound [lostGame 0x1d] bootEvents 0x19 [.run 0]
      (sessions Eeprom.erased [lostGame 0x1d])
      (runs (step (runs (init (sessions Eeprom.erased [lostGame 0x1d])) bootEvents) (.run 0x19))
        [.run 0]) 0 rfl (by decide) (by decide) rfl).2.2.2.1⟩

end MemoryGame
